import Mathlib

/-!
Shallow embedding of the core of OneTime (`OTP.py`): the `Configuration`
pad-records bookkeeping and the `PadSession` streaming XOR engine, with the
`SessionEncoder` / `SessionDecoder` pipelines built on top.

Modelling conventions:
* Python byte strings are `List Nat` (each entry is the `ord` of a byte).
* Python's unbounded `int` is `Int` where the source can go negative
  (Configuration range arithmetic) and `Nat` where it cannot (pad positions).
* A Python exception is a constructor of `PyErr`; functions that can raise
  return `Except PyErr`.  Python built-in exceptions that the source can hit
  (IndexError from out-of-range string indexing, TypeError from `ord('')` or
  `32 + None`, NameError from an unbound identifier, AttributeError from a
  method call on None) get their own constructors, since several claims are
  about which exception is raised.
* `file.read(n)` on the pad returns up to `n` bytes (short read at EOF, no
  exception), exactly like a Python file object.
* External libraries (hashlib's sha256, bz2, base64, the random source) are
  not code of this repository; they enter as function parameters, with the
  properties the proofs need (digest length 32, decompression inverting
  compression, base64 decode inverting encode) as explicit hypotheses.
-/

/-- The exceptions the embedded code can raise.  The first eight mirror the
exception classes defined in `OTP.py`; the `py*` constructors are Python
built-ins. -/
inductive PyErr where
  | padShort            -- PadSession.PadShort
  | overPrepared        -- PadSession.OverPrepared
  | uninitialized       -- PadSession.PadSessionUninitialized
  | formatLevelErr      -- PadSession.FormatLevel
  | innerFormat         -- PadSession.InnerFormat
  | fuzzMismatch        -- PadSession.FuzzMismatch
  | digestMismatch      -- PadSession.DigestMismatch
  | configurationError  -- Configuration.ConfigurationError
  | pyIndexError        -- Python IndexError
  | pyTypeError         -- Python TypeError
  | pyNameError         -- Python NameError
  | pyAttributeError    -- Python AttributeError
  | pyOSError           -- Python OSError
  deriving DecidableEq, Repr

/-- A used range of pad bytes, `(offset, length)`, as stored in pad-records.
Python ints, so `Int`. -/
abbrev URange : Type := Int × Int

namespace Configuration

/-- `PadSession._id_source_length`: length of the front stretch of pad used
for the pad ID (also the minimum next offset). -/
def id_source_length : Int := 32

/-- The walk inside `Configuration._consolidate_used_ranges` (OTP.py:342-382).
`last?` is the pending `(last_offset, last_length)` (None before the first
tuple), `acc` is `new_used`.  There is no sorting in the source: the list is
walked in the order given. -/
def consolidateLoop (allow_reconsumption : Bool) :
    List URange → Option URange → List URange → Except PyErr (List URange)
  | [], none, acc => .ok acc
  | [], some last, acc => .ok (acc ++ [last])
  | (this_offset, this_length) :: rest, none, acc =>
      consolidateLoop allow_reconsumption rest (some (this_offset, this_length)) acc
  | (this_offset, this_length) :: rest, some (last_offset, last_length), acc =>
      if last_offset + last_length ≥ this_offset then
        if last_offset + last_length > this_offset ∧ ¬allow_reconsumption then
          .error .configurationError
        else
          -- extend the range from the original offset; only adjust
          -- last_length when the new tuple ends past the current end
          let new_last_length :=
            if this_offset + this_length > last_offset + last_length then
              (this_offset - last_offset) + this_length
            else last_length
          consolidateLoop allow_reconsumption rest (some (last_offset, new_last_length)) acc
      else
        consolidateLoop allow_reconsumption rest (some (this_offset, this_length))
          (acc ++ [(last_offset, last_length)])

/-- `Configuration._consolidate_used_ranges(used, allow_reconsumption)`. -/
def consolidate_used_ranges (used : List URange) (allow_reconsumption : Bool) :
    Except PyErr (List URange) :=
  consolidateLoop allow_reconsumption used none []

/-- `Configuration._get_next_offset(used)` (OTP.py:384-400): the loop keeps
only the end of the last tuple, then clamps from below by the 32-byte pad-ID
stretch. -/
def get_next_offset (used : List URange) : Int :=
  let cur_offset := used.foldl (fun _ t => some (t.1 + t.2)) (none : Option Int)
  match cur_offset with
  | none => id_source_length
  | some c => if c < id_source_length then id_source_length else c

/-- `Configuration.record_consumed` (OTP.py:549-561), specialised to the one
pad record the session uses: append the session's `(offset, length)` and
reconsolidate. -/
def record_consumed (used : List URange) (offset length : Int)
    (allow_reconsumption : Bool) : Except PyErr (List URange) :=
  consolidate_used_ranges (used ++ [(offset, length)]) allow_reconsumption

end Configuration

/-- The set of byte positions covered by a list of `(offset, length)` ranges:
`p` is covered when some range satisfies `offset ≤ p < offset + length`. -/
def covers (ranges : List URange) (p : Int) : Prop :=
  ∃ r ∈ ranges, r.1 ≤ p ∧ p < r.1 + r.2

instance (ranges : List URange) (p : Int) : Decidable (covers ranges p) := by
  unfold covers; infer_instance

instance {ε α : Type} [DecidableEq ε] [DecidableEq α] : DecidableEq (Except ε α)
  | .error e, .error f =>
    if h : e = f then .isTrue (by rw [h])
    else .isFalse (fun hc => h (Except.error.inj hc))
  | .error _, .ok _ => .isFalse Except.noConfusion
  | .ok _, .error _ => .isFalse Except.noConfusion
  | .ok x, .ok y =>
    if h : x = y then .isTrue (by rw [h])
    else .isFalse (fun hc => h (Except.ok.inj hc))

/-- OneTime format levels.  The plaintext `Format:` header carries one of the
two words `internal` / `original`. -/
inductive FormatLevel where
  | internal
  | original
  deriving DecidableEq, Repr

/-- The three files `Configuration.save` (OTP.py:479-515) touches, each holding
a pad-records document or absent.  Document contents are modelled as the used
list that was serialised into them (`save` writes nothing else we track). -/
structure RecordsFS where
  live : Option (List URange)          -- <config>/pad-records
  tmp : Option (List URange)           -- <config>/pad-records.tmp
  intermediate : Option (List URange)  -- <config>/pad-records.int
  deriving DecidableEq, Repr

/-- The `Configuration` object, specialised to the single pad record the
session at hand uses (the source keys a dict by pad ID; every claim involves
one pad, so we track that one record's used list). -/
structure ConfigState where
  config_area : String   -- "-" means in-memory only (no disk activity)
  used : List URange     -- pad_records[pad_id]["used"]
  fs : RecordsFS
  deriving DecidableEq, Repr

namespace Configuration

/-- `Configuration.save` (OTP.py:479-515).  Python exceptions leave completed
file operations in place, so the result is `(raised exception?, file state)`.
Steps: no-op for in-memory mode; write the consolidated records to
`pad-records.tmp`; refuse if `pad-records.int` exists — the source line 509
is `raise ConfigurationError(...)` with a bare name that is not in scope
inside the method (Python class-body names are not visible from method
bodies), so what Python actually raises there is a NameError; otherwise
rename live → .int, .tmp → live, then remove .int. -/
def save (c : ConfigState) : Option PyErr × ConfigState :=
  if c.config_area = "-" then (none, c)
  else
    match consolidate_used_ranges c.used false with
    | .error e => (some e, { c with fs := { c.fs with tmp := some [] } })
    | .ok consolidated =>
      let c1 := { c with fs := { c.fs with tmp := some consolidated } }
      if c1.fs.intermediate.isSome then
        (some .pyNameError, c1)
      else
        match c1.fs.live with
        | none => (some .pyOSError, c1)  -- os.rename with a missing source
        | some live_content =>
          let c2 := { c1 with fs :=
            { c1.fs with live := none, intermediate := some live_content } }
          match c2.fs.tmp with
          | none => (some .pyOSError, c2)
          | some tmp_content =>
            let c3 := { c2 with fs :=
              { c2.fs with tmp := none, live := some tmp_content } }
            (none, { c3 with fs := { c3.fs with intermediate := none } })

end Configuration

/-- `PadSession` state (OTP.py:647-718), with the pad file inlined as the byte
list `pad` plus the read position `pos`, and the session's `Configuration`
(OTP.py:657) as the `config` field.  `rnd`/`rndPos` model the `RandomEnough`
stream: byte `i` of the stream is `rnd i % 256`. -/
structure PadSession where
  pad : List Nat                          -- contents of the pad file
  pos : Nat                               -- the pad file's read position
  offset : Option Nat                     -- self._offset
  length : Nat                            -- self._length
  fuzzRemainingToConsume : Nat            -- self._fuzz_remaining_to_consume
  sessionHash : Option (List Nat)         -- self._session_hash: the bytes fed so far
  tailFuzzLength : Option Nat             -- self._tail_fuzz_length
  tailFuzzLengthSourceBytes : List Nat    -- self._tail_fuzz_length_source_bytes
  headBuffer : List Nat                   -- self._head_buffer
  tailBuffer : List Nat                   -- self._tail_buffer
  encrypting : Bool                       -- self._encrypting
  decrypting : Bool                       -- self._decrypting
  begun : Bool                            -- self._begun
  formatLevel : Option FormatLevel        -- self._format_level
  rnd : Nat → Nat                         -- the RandomEnough byte stream
  rndPos : Nat                            -- how many random bytes were taken
  noTrace : Bool                          -- self._no_trace
  config : ConfigState                    -- self.config

namespace PadSession

/-- `PadSession._id_source_length`. -/
def id_source_length : Nat := 32
/-- `PadSession._digest_length`. -/
def digest_length : Nat := 32
/-- `PadSession._digest_source_length`. -/
def digest_source_length : Nat := 32
/-- `self._default_fuzz_source_length`. -/
def default_fuzz_source_length : Nat := 2
/-- `self._default_fuzz_source_modulo`. -/
def default_fuzz_source_modulo : Nat := 512

/-- `self.padfile.read(n)`: like a Python file object, returns up to `n`
bytes (a short read at end of file, never an exception). -/
def padRead (s : PadSession) (n : Nat) : List Nat × PadSession :=
  ((s.pad.drop s.pos).take n, { s with pos := min (s.pos + n) s.pad.length })

/-- `RandomEnough.rand_bytes(num)`: the next `num` bytes of the session's
random stream (each a value in 0..255, from `random.randint(0, 255)`). -/
def rand_bytes (s : PadSession) (num : Nat) : List Nat × PadSession :=
  ((List.range num).map (fun i => s.rnd (s.rndPos + i) % 256),
   { s with rndPos := s.rndPos + num })

/-- `PadSession.digest_gulp(string)`: `self._session_hash.update(string)`.
The hash state is the list of bytes fed so far; calling it with no hash
object is Python's AttributeError on None. -/
def digest_gulp (string : List Nat) (s : PadSession) : Except PyErr PadSession :=
  match s.sessionHash with
  | none => .error .pyAttributeError
  | some transcript => .ok { s with sessionHash := some (transcript ++ string) }

/-- `PadSession._initialize_hash` (OTP.py:751-762): guard
`self._offset + self._digest_source_length >= self.pad_size`, read 32 raw pad
bytes (count them), refuse a second initialisation, create the hash and feed
it those bytes.  Note the guard tests `_offset`, not the current read
position. -/
def init_hash (s : PadSession) : Except PyErr PadSession :=
  match s.offset with
  | none => .error .pyTypeError  -- None + 32 in Python
  | some off =>
    if off + digest_source_length ≥ s.pad.length then .error .padShort
    else
      let (digest_source_bytes, s1) := padRead s digest_source_length
      let s2 := { s1 with length := s1.length + digest_source_length }
      if s2.sessionHash.isSome then .error .overPrepared
      else digest_gulp digest_source_bytes { s2 with sessionHash := some [] }

/-- `PadSession.set_offset(offset)` (OTP.py:791-796). -/
def set_offset (offset : Nat) (s : PadSession) : Except PyErr PadSession :=
  if offset ≥ s.pad.length then .error .padShort
  else .ok { s with offset := some offset, pos := offset }

/-- `PadSession._get_fuzz_length_from_pad(num_bytes, modulo)`
(OTP.py:984-1057): read `num_bytes` source bytes from the pad (count them,
PadShort on a short read), multiply them together as 8-bit values starting
from 1, reduce mod `modulo`. -/
def get_fuzz_length_from_pad (num_bytes modulo : Nat) (s : PadSession) :
    Except PyErr ((Nat × List Nat) × PadSession) :=
  let (fuzz_length_source, s1) := padRead s num_bytes
  let s2 := { s1 with length := s1.length + num_bytes }
  if fuzz_length_source.length < num_bytes then .error .padShort
  else .ok ((fuzz_length_source.foldl (fun a x => a * x) 1 % modulo,
             fuzz_length_source), s2)

/-- `PadSession._consume_fuzz_bytes(num_bytes, string, is_head_fuzz)`
(OTP.py:1059-1092): consume `min (len string) num_bytes` fuzz bytes, reading
that much pad; when `is_head_fuzz`, XOR the consumed bytes with the pad bytes
and feed the result to the hash — the XOR loop indexes `pad_data[i]`, so a
short pad read is an IndexError there (`file.read` never raises the EOFError
the source tries to catch). -/
def consume_fuzz_bytes (num_bytes : Nat) (string : List Nat) (is_head_fuzz : Bool)
    (s : PadSession) : Except PyErr ((Nat × List Nat) × PadSession) :=
  let consumable_len := min string.length num_bytes
  let (pad_data, s1) := padRead s consumable_len
  let s2 := { s1 with length := s1.length + consumable_len }
  let rem := (num_bytes - string.length, string.drop consumable_len)
  if is_head_fuzz then
    if pad_data.length < consumable_len then .error .pyIndexError
    else
      match digest_gulp (List.zipWith (· ^^^ ·) (string.take consumable_len) pad_data) s2 with
      | .error e => .error e
      | .ok s3 => .ok (rem, s3)
  else .ok (rem, s2)

/-- `PadSession._make_fuzz(num_bytes, is_head_fuzz)` (OTP.py:1094-1111):
generate `num_bytes` random bytes, read as much pad, XOR them pointwise; the
XOR loop indexes `pad_data[i]`, so when the pad runs out this is an
IndexError — the `except EOFError` in the source is dead code because
`file.read` returns short data instead of raising.  When `is_head_fuzz`, the
raw random bytes are fed to the hash. -/
def make_fuzz (num_bytes : Nat) (is_head_fuzz : Bool) (s : PadSession) :
    Except PyErr (List Nat × PadSession) :=
  let (rnd_data, s1) := rand_bytes s num_bytes
  let (pad_data, s2) := padRead s1 num_bytes
  let s3 := { s2 with length := s2.length + num_bytes }
  if pad_data.length < num_bytes then .error .pyIndexError
  else
    let ret_data := List.zipWith (· ^^^ ·) rnd_data pad_data
    if is_head_fuzz then
      match digest_gulp rnd_data s3 with
      | .error e => .error e
      | .ok s4 => .ok (ret_data, s4)
    else .ok (ret_data, s3)

/-- `PadSession._make_inner_header` (OTP.py:1113-1241): consume one pad byte
for the format version (0 XOR pad), one for the flags (0 XOR pad), two
2-byte fuzz-length sources (head then tail, the raw source bytes go into the
output), initialise the hash from 32 raw pad bytes, generate the masked head
fuzz.  `ord` of an empty read is Python's TypeError. -/
def make_inner_header (s : PadSession) : Except PyErr (List Nat × PadSession) :=
  match s.offset with
  | none => .error .uninitialized
  | some _ =>
    let (b1, s1) := padRead s 1
    match b1 with
    | [] => .error .pyTypeError
    | next_pad_byte1 :: _ =>
      let s2 := { s1 with length := s1.length + 1 }
      let inner_header_format_version := 0 ^^^ next_pad_byte1
      let (b2, s3) := padRead s2 1
      match b2 with
      | [] => .error .pyTypeError
      | next_pad_byte2 :: _ =>
        let s4 := { s3 with length := s3.length + 1 }
        let fuzz_source_length_indicator := 0 ^^^ next_pad_byte2
        match get_fuzz_length_from_pad default_fuzz_source_length
            default_fuzz_source_modulo s4 with
        | .error e => .error e
        | .ok ((head_fuzz_length, head_fuzz_length_source_bytes), s5) =>
          match get_fuzz_length_from_pad default_fuzz_source_length
              default_fuzz_source_modulo s5 with
          | .error e => .error e
          | .ok ((tail_fuzz_length, tail_fuzz_length_source_bytes), s6) =>
            let s7 := { s6 with tailFuzzLength := some tail_fuzz_length, tailFuzzLengthSourceBytes := tail_fuzz_length_source_bytes }
            match init_hash s7 with
            | .error e => .error e
            | .ok s8 =>
              match make_fuzz head_fuzz_length true s8 with
              | .error e => .error e
              | .ok (head_fuzz, s9) =>
                .ok (inner_header_format_version :: fuzz_source_length_indicator ::
                      (head_fuzz_length_source_bytes ++
                       tail_fuzz_length_source_bytes ++ head_fuzz), s9)

/-- `PadSession.prepare_for_encryption` (OTP.py:764-773). -/
def prepare_for_encryption (s : PadSession) : Except PyErr PadSession :=
  if s.encrypting then .error .overPrepared
  else if s.decrypting then .error .overPrepared
  else
    match make_inner_header s with
    | .error e => .error e
    | .ok (hdr, s1) => .ok { s1 with headBuffer := hdr, encrypting := true }

/-- `PadSession.prepare_for_decryption` (OTP.py:775-789). -/
def prepare_for_decryption (s : PadSession) : Except PyErr PadSession :=
  if s.decrypting then .error .overPrepared
  else if s.encrypting then .error .overPrepared
  else .ok { s with decrypting := true }

/-- `PadSession._handle_inner_header(string)` (OTP.py:1243-1381).  Unmask the
version byte from `string[0]` (IndexError when `string` is empty) and the
flag byte from `string[1]` (IndexError when shorter than 2 — `ord(string[1])`
is evaluated before the pad read on that line); derive the fuzz lengths from
the pad's own copies of the source bytes, initialise the hash, consume what
head fuzz is present in `string` past the 6 header bytes; reserved flag bits
are checked after that; finally report either the unconsumed remainder of
`string` or how many header+fuzz bytes are still owed. -/
def handle_inner_header (string : List Nat) (s : PadSession) :
    Except PyErr ((List Nat × Nat) × PadSession) :=
  match s.offset with
  | none => .error .uninitialized
  | some _ =>
    let (b1, s1) := padRead s 1
    match b1 with
    | [] => .error .pyTypeError
    | next_pad_byte :: _ =>
      let s2 := { s1 with length := s1.length + 1 }
      -- fuzz_length = 1 after the version byte
      match string with
      | [] => .error .pyIndexError  -- ord(string[0])
      | c0 :: string1 =>
        let inner_format_version := c0 ^^^ next_pad_byte
        if inner_format_version = 0 then
          match string1 with
          | [] => .error .pyIndexError  -- ord(string[1])
          | c1 :: _ =>
            let (b2, s3) := padRead s2 1
            match b2 with
            | [] => .error .pyTypeError
            | next_pad_byte2 :: _ =>
              let first_flag_byte := c1 ^^^ next_pad_byte2
              let s4 := { s3 with length := s3.length + 1 }
              -- fuzz_length = 2 after the flag byte
              if first_flag_byte &&& 1 = 0 then
                match get_fuzz_length_from_pad default_fuzz_source_length
                    default_fuzz_source_modulo s4 with
                | .error e => .error e
                | .ok ((head_fuzz_length, _head_fuzz_length_source_bytes), s5) =>
                  match get_fuzz_length_from_pad default_fuzz_source_length
                      default_fuzz_source_modulo s5 with
                  | .error e => .error e
                  | .ok ((tail_fuzz_length, tail_fuzz_length_source_bytes), s6) =>
                    let s7 := { s6 with tailFuzzLength := some tail_fuzz_length, tailFuzzLengthSourceBytes := tail_fuzz_length_source_bytes }
                    match init_hash s7 with
                    | .error e => .error e
                    | .ok s8 =>
                      match consume_fuzz_bytes head_fuzz_length
                          (string.drop (2 + default_fuzz_source_length * 2)) true s8 with
                      | .error e => .error e
                      | .ok ((_num_fuzz_bytes_remaining, _unconsumed_string), s9) =>
                        let fuzz_length :=
                          2 + default_fuzz_source_length * 2 + head_fuzz_length
                        if first_flag_byte &&& 2 ≠ 0 ∨ first_flag_byte &&& 4 ≠ 0 ∨
                            first_flag_byte &&& 8 ≠ 0 ∨ first_flag_byte &&& 16 ≠ 0 ∨
                            first_flag_byte &&& 32 ≠ 0 ∨ first_flag_byte &&& 64 ≠ 0 ∨
                            first_flag_byte &&& 128 ≠ 0 then
                          .error .innerFormat
                        else
                          if string.length < fuzz_length then
                            .ok (([], fuzz_length - string.length), s9)
                          else
                            .ok ((string.drop fuzz_length, 0), s9)
              else .error .innerFormat  -- sender-chosen fuzz length, unimplemented
        else .error .innerFormat  -- unknown inner format version

/-- The `elif not self._begun: if self._decrypting: ...` block of
`PadSession.convert` (OTP.py:832-864): run the inner-header handling on the
first decrypting call, reject a simultaneous non-empty remainder and fuzz
debt, record the fuzz debt. -/
def convert_head_step (string : List Nat) (s : PadSession) :
    Except PyErr (List Nat × PadSession) :=
  if ¬s.begun then
    if s.decrypting then
      match handle_inner_header string s with
      | .error e => .error e
      | .ok ((string2, fuzz_remaining), s1) =>
        if string2 ≠ [] ∧ fuzz_remaining ≠ 0 then .error .innerFormat
        else if fuzz_remaining > 0 then
          .ok (string2, { s1 with fuzzRemainingToConsume := fuzz_remaining })
        else .ok (string2, s1)
    else .ok (string, s)
  else .ok (string, s)

/-- The `if self._fuzz_remaining_to_consume > 0` block of `PadSession.convert`
(OTP.py:866-877): consume as much of the owed head fuzz as this call's input
provides. -/
def convert_fuzz_step (string : List Nat) (s : PadSession) :
    Except PyErr (List Nat × PadSession) :=
  if s.fuzzRemainingToConsume > 0 then
    let new_fuzz_remaining :=
      if s.fuzzRemainingToConsume > string.length then
        s.fuzzRemainingToConsume - string.length
      else 0
    let num_bytes_to_consume_now :=
      if s.fuzzRemainingToConsume > string.length then string.length
      else s.fuzzRemainingToConsume
    let s1 := { s with fuzzRemainingToConsume := new_fuzz_remaining }
    match consume_fuzz_bytes num_bytes_to_consume_now string true s1 with
    | .error e => .error e
    | .ok ((num_fuzz_bytes_remaining, string2), s2) =>
      .ok (string2, { s2 with fuzzRemainingToConsume :=
                        s2.fuzzRemainingToConsume + num_fuzz_bytes_remaining })
  else .ok (string, s)

/-- The `if self._decrypting:` tail-reserve block of `PadSession.convert`
(OTP.py:879-892): append the input to the tail buffer and release only the
excess beyond `digest_length + tail_fuzz_length` bytes.  A still-unset tail
fuzz length would be Python's `32 + None` TypeError. -/
def convert_tail_step (string : List Nat) (s : PadSession) :
    Except PyErr (List Nat × PadSession) :=
  if s.decrypting then
    match s.tailFuzzLength with
    | none => .error .pyTypeError
    | some tail_fuzz_length =>
      let buf := s.tailBuffer ++ string
      if buf.length < digest_length + tail_fuzz_length then
        .ok ([], { s with tailBuffer := buf })
      else
        .ok (buf.take (buf.length - (digest_length + tail_fuzz_length)),
             { s with tailBuffer :=
                buf.drop (buf.length - (digest_length + tail_fuzz_length)) })
  else .ok (string, s)

/-- `PadSession.convert(string, format_level)` (OTP.py:798-918): offset and
format-level checks, the three internal-level blocks above, then the XOR of
the surviving bytes against freshly read pad (PadShort when the pad cannot
supply them), counting them, setting `begun`, and prepending the buffered
inner header on the first encrypting emission. -/
def convert (string : List Nat) (format_level : FormatLevel) (s : PadSession) :
    Except PyErr (List Nat × PadSession) :=
  match s.offset with
  | none => .error .uninitialized
  | some _ =>
    match (match s.formatLevel with
           | none => Except.ok { s with formatLevel := some format_level }
           | some fl =>
             if fl ≠ format_level then Except.error PyErr.formatLevelErr
             else Except.ok s) with
    | .error e => .error e
    | .ok s1 =>
      let inner : Except PyErr (List Nat × PadSession) :=
        if format_level = .internal then
          if s1.encrypting ∧ s1.decrypting then .error .overPrepared
          else if ¬s1.encrypting ∧ ¬s1.decrypting then .error .uninitialized
          else
            match convert_head_step string s1 with
            | .error e => .error e
            | .ok (string2, s2) =>
              match convert_fuzz_step string2 s2 with
              | .error e => .error e
              | .ok (string3, s3) => convert_tail_step string3 s3
        else .ok (string, s1)
      match inner with
      | .error e => .error e
      | .ok (string4, s4) =>
        let string_len := string4.length
        let (pad_str, s5) := padRead s4 string_len
        if pad_str.length < string_len then .error .padShort
        else
          let result := List.zipWith (· ^^^ ·) string4 pad_str
          let s6 := { s5 with length := s5.length + string_len, begun := true }
          if s6.headBuffer ≠ [] then
            .ok (s6.headBuffer ++ result, { s6 with headBuffer := [] })
          else .ok (result, s6)

/-- `PadSession._verify_digest` (OTP.py:1387-1404): read 32 pad bytes, unmask
the first 32 tail-buffer bytes with them (the loop indexes both, so a short
buffer or pad is an IndexError), drop them from the buffer, and compare with
the running hash's digest. -/
def verify_digest (sha256 : List Nat → List Nat) (s : PadSession) :
    Except PyErr PadSession :=
  let (pad_bytes, s1) := padRead s digest_length
  let s2 := { s1 with length := s1.length + digest_length }
  if s2.tailBuffer.length < digest_length ∨ pad_bytes.length < digest_length then
    .error .pyIndexError
  else
    let received_digest :=
      List.zipWith (· ^^^ ·) (s2.tailBuffer.take digest_length) pad_bytes
    let s3 := { s2 with tailBuffer := s2.tailBuffer.drop digest_length }
    match s3.sessionHash with
    | none => .error .pyAttributeError
    | some transcript =>
      if sha256 transcript ≠ received_digest then .error .digestMismatch
      else .ok s3

/-- `PadSession.finish` (OTP.py:1406-1450).  Internal level: encrypting emits
the masked digest plus the masked tail fuzz; decrypting verifies the digest
and then consumes the tail buffer as tail fuzz, demanding an exact fit.  In
both cases consumption is recorded (`record_consumed(self._decrypting)`) and,
unless `no_trace`, the configuration is saved.  The decrypting return value
(`None` in Python) is modelled as `[]`. -/
def finish (sha256 : List Nat → List Nat) (s0 : PadSession) :
    Except PyErr (List Nat × PadSession) :=
  let step1 : Except PyErr (List Nat × PadSession) :=
    if s0.formatLevel = some FormatLevel.internal then
      match s0.tailFuzzLength with
      | none => .error .uninitialized
      | some tail_fuzz_length =>
        if s0.encrypting then
          match s0.sessionHash with
          | none => .error .pyAttributeError
          | some transcript =>
            match convert (sha256 transcript) .internal s0 with
            | .error e => .error e
            | .ok (r1, s1) =>
              match make_fuzz tail_fuzz_length false s1 with
              | .error e => .error e
              | .ok (r2, s2) => .ok (r1 ++ r2, s2)
        else if s0.decrypting then
          match verify_digest sha256 s0 with
          | .error e => .error e
          | .ok s1 =>
            match consume_fuzz_bytes tail_fuzz_length s1.tailBuffer false s1 with
            | .error e => .error e
            | .ok ((num_fuzz_bytes_remaining, unconsumed_string), s2) =>
              if num_fuzz_bytes_remaining ≠ 0 ∨ unconsumed_string ≠ [] then
                .error .fuzzMismatch
              else .ok ([], s2)
        else .error .overPrepared
    else .ok ([], s0)
  match step1 with
  | .error e => .error e
  | .ok (remainder, s1) =>
    match s1.offset with
    | none => .error .pyTypeError
    | some off =>
      match Configuration.record_consumed s1.config.used (off : Int)
          (s1.length : Int) s1.decrypting with
      | .error e => .error e
      | .ok used2 =>
        let s2 := { s1 with config := { s1.config with used := used2 } }
        if ¬s2.noTrace then
          match Configuration.save s2.config with
          | (some e, _) => .error e
          | (none, c2) => .ok (remainder, { s2 with config := c2 })
        else .ok (remainder, s2)

end PadSession

/-- `PadSession.__init__` (OTP.py:647-718) followed by the
`Configuration.register` call it ends with: a fresh session positioned at
`Configuration._get_next_offset` of the pad's recorded used list (32 for a
fresh record).  The register bookkeeping (pad-ID lookup / legacy upgrade) is
specialised to the single record in `config`. -/
def mk_pad_session (pad : List Nat) (config : ConfigState) (no_trace : Bool)
    (rnd : Nat → Nat) : Except PyErr PadSession :=
  let s : PadSession :=
    { pad := pad, pos := 0, offset := none, length := 0,
      fuzzRemainingToConsume := 0, sessionHash := none, tailFuzzLength := none,
      tailFuzzLengthSourceBytes := [], headBuffer := [], tailBuffer := [],
      encrypting := false, decrypting := false, begun := false,
      formatLevel := none, rnd := rnd, rndPos := 0, noTrace := no_trace,
      config := config }
  PadSession.set_offset (Configuration.get_next_offset config.used).toNat s

/-- `SessionEncoder` driven as `main()` drives it for a plaintext `P` given in
one piece (OTP.py:1457-1495, 1831-1846): construct the session, apply the
explicit `--offset`, `prepare_for_encryption`, one `encode(P)` call, then
`finish()`.  The bz2 compressor is external, so its two outputs enter as the
parameters `compressed_plaintext` (for `compress(P)`) and `flush_output` (for
`flush()`); base64 is external, so the armoring enters as `b64encode`.  The
result is the list of base64 pieces written to the armor body plus the
session's final consumed length. -/
def encoder_run (sha256 b64encode : List Nat → List Nat)
    (compressed_plaintext flush_output : List Nat) (rnd : Nat → Nat)
    (pad : List Nat) (config : ConfigState) (no_trace : Bool)
    (explicit_offset : Nat) (P : List Nat) :
    Except PyErr (List (List Nat) × Nat) :=
  match mk_pad_session pad config no_trace rnd with
  | .error e => .error e
  | .ok s0 =>
    match PadSession.set_offset explicit_offset s0 with
    | .error e => .error e
    | .ok s1 =>
      match PadSession.prepare_for_encryption s1 with
      | .error e => .error e
      | .ok s2 =>
        let encStep : Except PyErr (List (List Nat) × PadSession) :=
          if compressed_plaintext ≠ [] then
            match PadSession.convert compressed_plaintext .internal s2 with
            | .error e => .error e
            | .ok (ct1, s3) => .ok ([b64encode ct1], s3)
          else .ok ([], s2)
        match encStep with
        | .error e => .error e
        | .ok (pieces1, s3) =>
          match PadSession.digest_gulp P s3 with
          | .error e => .error e
          | .ok s4 =>
            match PadSession.convert flush_output .internal s4 with
            | .error e => .error e
            | .ok (ct2, s5) =>
              match PadSession.finish sha256 s5 with
              | .error e => .error e
              | .ok (fin, s6) => .ok (pieces1 ++ [b64encode (ct2 ++ fin)], s6.length)

/-- The `decode` loop of `main()` (OTP.py:1886-1915) over `SessionDecoder`
(OTP.py:1498-1542) at the internal level: each piece is base64-decoded,
converted, pushed through the streaming bz2 decompressor, and the fresh
decompressed output is fed to the session hash and appended to the output.
The decompressor is external and streaming; it enters as `dcmp`, mapping the
total input fed so far to the total output produced so far, with
`dcmp_in` the accumulated input. -/
def decoder_loop (sha256 b64decode : List Nat → List Nat)
    (dcmp : List Nat → List Nat) :
    List (List Nat) → PadSession → List Nat → List Nat →
    Except PyErr (List Nat × PadSession)
  | [], s, _dcmp_in, out => .ok (out, s)
  | piece :: rest, s, dcmp_in, out =>
    match PadSession.convert (b64decode piece) .internal s with
    | .error e => .error e
    | .ok (conv, s1) =>
      let dcmp_in2 := dcmp_in ++ conv
      let ret := (dcmp dcmp_in2).drop (dcmp dcmp_in).length
      match PadSession.digest_gulp ret s1 with
      | .error e => .error e
      | .ok s2 => decoder_loop sha256 b64decode dcmp rest s2 dcmp_in2 (out ++ ret)

/-- `SessionDecoder` driven as `main()` drives it at the internal level:
construct a fresh session on the same pad, apply the armor's offset,
`prepare_for_decryption` (`SessionDecoder.__init__`), decode each armored
piece, then `finish()`.  Returns the concatenated plaintext output and the
session's final consumed length. -/
def decoder_run (sha256 b64decode : List Nat → List Nat)
    (dcmp : List Nat → List Nat) (rnd : Nat → Nat)
    (pad : List Nat) (config : ConfigState) (no_trace : Bool)
    (explicit_offset : Nat) (pieces : List (List Nat)) :
    Except PyErr (List Nat × Nat) :=
  match mk_pad_session pad config no_trace rnd with
  | .error e => .error e
  | .ok s0 =>
    match PadSession.set_offset explicit_offset s0 with
    | .error e => .error e
    | .ok s1 =>
      match PadSession.prepare_for_decryption s1 with
      | .error e => .error e
      | .ok s2 =>
        match decoder_loop sha256 b64decode dcmp pieces s2 [] [] with
        | .error e => .error e
        | .ok (out, s3) =>
          match PadSession.finish sha256 s3 with
          | .error e => .error e
          | .ok (_, s4) => .ok (out, s4.length)

/-- Spec-side helper: the end offset (`offset + length`) of the last range of
the nonempty list `last :: rest`. -/
def lastEnd : URange → List URange → Int
  | last, [] => last.1 + last.2
  | _, q :: rest => lastEnd q rest

/-- Driver feeding a sequence of chunks through `PadSession.convert` at the
internal level, collecting everything the calls emit — exactly how
`SessionDecoder.decode` drives the session once per incoming piece. -/
def convert_chunks : List (List Nat) → PadSession → Except PyErr (List Nat × PadSession)
  | [], s => .ok ([], s)
  | c :: cs, s =>
    match PadSession.convert c .internal s with
    | .error e => .error e
    | .ok (out, s1) =>
      match convert_chunks cs s1 with
      | .error e => .error e
      | .ok (outs, s2) => .ok (out ++ outs, s2)

/-- A stand-in for hashlib's sha256 digest in concrete witness runs: any
function with 32-byte output satisfies the digest-length hypothesis the
theorems take. -/
def z32fn : List Nat → List Nat := fun _ => List.replicate 32 0

/-- An in-memory configuration (`config_area = "-"`) with a fresh pad record. -/
def zeroCfg : ConfigState := ⟨"-", [], ⟨none, none, none⟩⟩

/-- A bare session state over `pad` as `PadSession.__init__` builds it (before
`register` seats the offset); used to instantiate theorems at concrete
inputs. -/
def testSession (pad : List Nat) : PadSession :=
  { pad := pad, pos := 0, offset := none, length := 0,
    fuzzRemainingToConsume := 0, sessionHash := none, tailFuzzLength := none,
    tailFuzzLengthSourceBytes := [], headBuffer := [], tailBuffer := [],
    encrypting := false, decrypting := false, begun := false,
    formatLevel := none, rnd := fun _ => 0, rndPos := 0, noTrace := false,
    config := zeroCfg }

/-- An all-zero 105-byte pad: both fuzz-length sources are zero bytes, so the
derived head and tail fuzz lengths are 0. -/
def padZ : List Nat := List.replicate 105 0

/-- The armored pieces `encoder_run` produces on `padZ` at offset 32 for the
3-byte body `[7, 8, 9]` (identity base64, `z32fn` digest, zero randomness):
the 6-byte inner header plus body, then the 32-byte masked digest with no
tail fuzz. -/
def padZpieces : List (List Nat) := [[0, 0, 0, 0, 0, 0, 7, 8, 9], List.replicate 32 0]

/-- A configuration state in which a leftover `pad-records.int` file exists:
the state `Configuration.save` refuses to proceed from. -/
def cfgC6 : ConfigState := ⟨"home", [(32, 100)], ⟨some [(32, 50)], none, some []⟩⟩

/-- The whole ciphertext body from `padZpieces` as one byte string. -/
def padZbody : List Nat := [0, 0, 0, 0, 0, 0, 7, 8, 9] ++ List.replicate 32 0

/-- A decrypting session on `padZ` in the steady state (inner header and head
fuzz already consumed, read position 70, tail-fuzz length 0), used to witness
the tail-reserve invariant. -/
def sC9 : PadSession :=
  { testSession padZ with offset := some 32, pos := 70, decrypting := true, begun := true, formatLevel := some FormatLevel.internal, tailFuzzLength := some 0, sessionHash := some [] }

/-- Byte `i` of the pad (0 past the end), for stating what the session reads. -/
def byteAt (K : List Nat) (i : Nat) : Nat := K.getD i 0

/-- The head-fuzz length the session derives at offset `o` of pad `K`: the
product of the two raw source bytes at `o+2`, starting from 1, mod 512. -/
def headFuzzLen (K : List Nat) (o : Nat) : Nat :=
  ((K.drop (o + 2)).take 2).foldl (fun a x => a * x) 1 % 512

/-- The tail-fuzz length: same derivation from the two bytes at `o+4`. -/
def tailFuzzLen (K : List Nat) (o : Nat) : Nat :=
  ((K.drop (o + 4)).take 2).foldl (fun a x => a * x) 1 % 512

/-- `num` bytes of the `RandomEnough` stream `rnd` starting at stream
position `start`. -/
def rndBytes (rnd : Nat → Nat) (start num : Nat) : List Nat :=
  (List.range num).map (fun i => rnd (start + i) % 256)

/-- `x` XOR-masked against the pad bytes starting at position `pos`. -/
def maskSlice (x K : List Nat) (pos : Nat) : List Nat :=
  List.zipWith (· ^^^ ·) x ((K.drop pos).take x.length)

/-- The plaintext of the inner header the session emits at offset `o`:
version byte and flag byte (0 each, XOR the pad bytes at `o` and `o+1`),
the four raw fuzz-length source bytes, and the masked head fuzz. -/
def innerHeaderSpec (K : List Nat) (o : Nat) (rnd : Nat → Nat) : List Nat :=
  byteAt K o :: byteAt K (o + 1) ::
    ((K.drop (o + 2)).take 2 ++ (K.drop (o + 4)).take 2 ++
     maskSlice (rndBytes rnd 0 (headFuzzLen K o)) K (o + 38))

/-- The 32 raw pad bytes seeding the session hash. -/
def hashSeedSpec (K : List Nat) (o : Nat) : List Nat := (K.drop (o + 6)).take 32

/-- Total pad consumption of a successful internal-level session at offset
`o` whose converted body (compressed plaintext) has `n` bytes:
`38 + H` header bytes, the body, the 32-byte digest and the tail fuzz. -/
def sessionLenSpec (K : List Nat) (o n : Nat) : Nat :=
  70 + headFuzzLen K o + tailFuzzLen K o + n

/-! ## Cover lemmas for used-range lists -/

theorem covers_nil (p : Int) : covers [] p ↔ False := by simp [covers]

theorem covers_cons {a b : Int} {L : List URange} {p : Int} :
    covers ((a, b) :: L) p ↔ (a ≤ p ∧ p < a + b) ∨ covers L p := by
  simp [covers]

theorem covers_append {A B : List URange} {p : Int} :
    covers (A ++ B) p ↔ covers A p ∨ covers B p := by
  constructor
  · rintro ⟨r, hr, h⟩
    rcases List.mem_append.1 hr with h' | h'
    · exact Or.inl ⟨r, h', h⟩
    · exact Or.inr ⟨r, h', h⟩
  · rintro (⟨r, hr, h⟩ | ⟨r, hr, h⟩)
    · exact ⟨r, List.mem_append.2 (Or.inl hr), h⟩
    · exact ⟨r, List.mem_append.2 (Or.inr hr), h⟩

/-- Cover-preservation invariant of the `_consolidate_used_ranges` walk, for
a pending range of nonnegative length, when either reconsumption is forbidden
or the remaining input is sorted by offset. -/
theorem consolidateLoop_cover (allow : Bool) :
    ∀ (rest : List URange) (lo ll : Int) (acc Y : List URange),
      (∀ q ∈ rest, 0 ≤ q.2) → 0 ≤ ll →
      (allow = false ∨ ∀ q ∈ rest, lo ≤ q.1) →
      (allow = false ∨ rest.Pairwise (fun a b => a.1 ≤ b.1)) →
      Configuration.consolidateLoop allow rest (some (lo, ll)) acc = .ok Y →
      ∀ p : Int, covers Y p ↔ covers acc p ∨ (lo ≤ p ∧ p < lo + ll) ∨ covers rest p := by
  intro rest
  induction rest with
  | nil =>
    intro lo ll acc Y _ _ _ _ hok p
    simp only [Configuration.consolidateLoop] at hok
    rw [Except.ok.injEq] at hok
    subst hok
    rw [covers_append, covers_cons]
  | cons q rest ih =>
    intro lo ll acc Y hnn hll hle hpw hok p
    obtain ⟨toff, tl⟩ := q
    have htl : 0 ≤ tl := hnn (toff, tl) (List.mem_cons_self _ _)
    have hnn' : ∀ q ∈ rest, 0 ≤ q.2 := fun q hq => hnn q (List.mem_cons_of_mem _ hq)
    have hpw' : allow = false ∨ rest.Pairwise (fun a b => a.1 ≤ b.1) := by
      rcases hpw with h | h
      · exact Or.inl h
      · exact Or.inr (List.pairwise_cons.1 h).2
    simp only [Configuration.consolidateLoop] at hok
    by_cases hge : lo + ll ≥ toff
    · rw [if_pos hge] at hok
      by_cases herr : lo + ll > toff ∧ ¬allow
      · rw [if_pos herr] at hok; cases hok
      · rw [if_neg herr] at hok
        have hto : lo ≤ toff := by
          rcases hle with h | h
          · subst h
            have : ¬(lo + ll > toff) := fun hgt => herr ⟨hgt, by simp⟩
            omega
          · exact h (toff, tl) (List.mem_cons_self _ _)
        have hle' : allow = false ∨ ∀ q ∈ rest, lo ≤ q.1 := by
          rcases hpw with h | h
          · exact Or.inl h
          · refine Or.inr fun q hq => le_trans hto ?_
            exact (List.pairwise_cons.1 h).1 q hq
        by_cases hext : toff + tl > lo + ll
        · rw [if_pos hext] at hok
          have hiff : (lo ≤ p ∧ p < lo + (toff - lo + tl)) ↔
              ((lo ≤ p ∧ p < lo + ll) ∨ (toff ≤ p ∧ p < toff + tl)) := by omega
          rw [ih lo (toff - lo + tl) acc Y hnn' (by omega) hle' hpw' hok p,
              covers_cons, hiff]
          clear ih hok
          simp only [or_assoc]
        · rw [if_neg hext] at hok
          have hiff : (toff ≤ p ∧ p < toff + tl) → (lo ≤ p ∧ p < lo + ll) := by omega
          rw [ih lo ll acc Y hnn' hll hle' hpw' hok p, covers_cons]
          clear ih hok
          constructor
          · rintro (h | h | h)
            · exact Or.inl h
            · exact Or.inr (Or.inl h)
            · exact Or.inr (Or.inr (Or.inr h))
          · rintro (h | h | h | h)
            · exact Or.inl h
            · exact Or.inr (Or.inl h)
            · exact Or.inr (Or.inl (hiff h))
            · exact Or.inr (Or.inr h)
    · rw [if_neg hge] at hok
      have hle' : allow = false ∨ ∀ q ∈ rest, toff ≤ q.1 := by
        rcases hpw with h | h
        · exact Or.inl h
        · exact Or.inr (List.pairwise_cons.1 h).1
      rw [ih toff tl (acc ++ [(lo, ll)]) Y hnn' htl hle' hpw' hok p,
          covers_append, covers_cons, covers_nil]
      clear ih hok
      simp only [covers_cons, covers_nil, or_false, or_assoc]

/-- C2 (amended).  For range lists with nonnegative lengths, whenever
`_consolidate_used_ranges` returns without error and either reconsumption is
forbidden or the input is sorted by offset, the output covers exactly the
byte positions the input covers. -/
theorem consolidate_preserves_cover (X : List URange) (allow : Bool) (Y : List URange)
    (hnn : ∀ r ∈ X, 0 ≤ r.2)
    (hsort : allow = false ∨ X.Pairwise (fun a b => a.1 ≤ b.1))
    (hok : Configuration.consolidate_used_ranges X allow = .ok Y) :
    ∀ p : Int, covers Y p ↔ covers X p := by
  intro p
  cases X with
  | nil =>
    simp only [Configuration.consolidate_used_ranges, Configuration.consolidateLoop] at hok
    rw [Except.ok.injEq] at hok
    subst hok
    rfl
  | cons x rest =>
    obtain ⟨lo, ll⟩ := x
    have hok' : Configuration.consolidateLoop allow rest (some (lo, ll)) [] = .ok Y := hok
    have hll : 0 ≤ ll := hnn (lo, ll) (List.mem_cons_self _ _)
    have hnn' : ∀ q ∈ rest, 0 ≤ q.2 := fun q hq => hnn q (List.mem_cons_of_mem _ hq)
    have hle : allow = false ∨ ∀ q ∈ rest, lo ≤ q.1 := by
      rcases hsort with h | h
      · exact Or.inl h
      · exact Or.inr (List.pairwise_cons.1 h).1
    have hpw : allow = false ∨ rest.Pairwise (fun a b => a.1 ≤ b.1) := by
      rcases hsort with h | h
      · exact Or.inl h
      · exact Or.inr (List.pairwise_cons.1 h).2
    rw [consolidateLoop_cover allow rest lo ll [] Y hnn' hll hle hpw hok' p, covers_cons]
    simp [covers_nil, covers]

/-- C2 counterexample.  On the unsorted input `[(10, 5), (0, 3)]` with
`allow_reconsumption = True`, `_consolidate_used_ranges` returns `[(10, 5)]`
without error, silently dropping the cover of position 0. -/
theorem consolidate_cover_counterexample :
    Configuration.consolidate_used_ranges [((10 : Int), 5), (0, 3)] true = .ok [(10, 5)] ∧
    covers [((10 : Int), 5), (0, 3)] 0 ∧ ¬ covers [((10 : Int), 5)] 0 := by decide

/-- Witness for the amended C2 theorem at a concrete sorted, overlapping
input. -/
theorem consolidate_preserves_cover_witness :
    covers [((0 : Int), 4)] 3 ↔ covers [((0 : Int), 2), (1, 3)] 3 :=
  consolidate_preserves_cover [((0 : Int), 2), (1, 3)] true [(0, 4)]
    (by decide) (Or.inr (by decide)) (by decide) 3

/-! ## C8: next offset -/

theorem foldl_lastEnd (used : List URange) (init : Option Int) :
    used.foldl (fun _ t => some (t.1 + t.2)) init =
      (match used.getLast? with
       | none => init
       | some t => some (t.1 + t.2)) := by
  induction used generalizing init with
  | nil => rfl
  | cons a l ih =>
    cases l with
    | nil => rfl
    | cons b t =>
      rw [List.foldl_cons, ih]
      rfl

/-- C8.  `_get_next_offset` returns the end offset of the last range or 32,
whichever is larger; in particular it is never below the reserved 32-byte
identifier stretch. -/
theorem get_next_offset_spec :
    ∀ used : List URange,
      (used = [] → Configuration.get_next_offset used = 32) ∧
      (∀ a b : Int, used.getLast? = some (a, b) →
          Configuration.get_next_offset used = max 32 (a + b)) ∧
      32 ≤ Configuration.get_next_offset used := by
  intro used
  have hfold := foldl_lastEnd used none
  refine ⟨?_, ?_, ?_⟩
  · intro h
    subst h
    rfl
  · intro a b h
    unfold Configuration.get_next_offset
    rw [hfold, h]
    simp only [Configuration.id_source_length]
    rcases le_or_lt 32 (a + b) with h32 | h32
    · rw [if_neg (by omega), max_eq_right h32]
    · rw [if_pos h32, max_eq_left h32.le]
  · unfold Configuration.get_next_offset
    rw [hfold]
    cases h : used.getLast? with
    | none => simp [Configuration.id_source_length]
    | some t =>
      simp only [Configuration.id_source_length]
      split <;> omega

/-- Witness for C8 at a concrete list and the empty list. -/
theorem get_next_offset_spec_witness :
    Configuration.get_next_offset [((40 : Int), 5)] = max 32 45 ∧
    Configuration.get_next_offset [] = 32 ∧
    32 ≤ Configuration.get_next_offset [((2 : Int), 3)] :=
  ⟨(get_next_offset_spec [((40 : Int), 5)]).2.1 40 5 rfl,
   (get_next_offset_spec []).1 rfl,
   (get_next_offset_spec [((2 : Int), 3)]).2.2⟩

/-! ## C10: set_offset boundary -/

/-- C10.  `set_offset(offset)` raises PadShort exactly when
`offset ≥ pad_size` (an offset equal to the pad size is rejected), and on
success it records the offset and moves the pad read position to exactly
`offset`. -/
theorem set_offset_boundary :
    ∀ (s : PadSession) (offset : Nat),
      (s.pad.length ≤ offset → PadSession.set_offset offset s = .error .padShort) ∧
      (offset < s.pad.length →
        PadSession.set_offset offset s =
          .ok { s with offset := some offset, pos := offset }) := by
  intro s offset
  constructor
  · intro h
    unfold PadSession.set_offset
    rw [if_pos (by omega)]
  · intro h
    unfold PadSession.set_offset
    rw [if_neg (by omega)]

/-- Witness for C10: a 40-byte pad rejects offset 40 (the exact size) and
accepts offset 35. -/
theorem set_offset_boundary_witness :
    PadSession.set_offset 40 (testSession (List.replicate 40 0)) = .error .padShort ∧
    PadSession.set_offset 35 (testSession (List.replicate 40 0)) =
      .ok { testSession (List.replicate 40 0) with offset := some 35, pos := 35 } :=
  ⟨(set_offset_boundary (testSession (List.replicate 40 0)) 40).1 (by decide),
   (set_offset_boundary (testSession (List.replicate 40 0)) 35).2 (by decide)⟩

/-! ## C6: save refusal on leftover intermediate file -/

/-- C6 (against the code).  With a leftover `pad-records.int` present and a
real (non `-`) config area, `Configuration.save` refuses — but via Python's
NameError (OTP.py:509 raises the unbound bare name `ConfigurationError`),
not via a `Configuration.ConfigurationError` — and the live `pad-records`
file is left unchanged (only the `.tmp` file has been written). -/
theorem save_leftover_intermediate_nameerror :
    Configuration.save cfgC6 =
      (some PyErr.pyNameError,
        ⟨"home", [(32, 100)], ⟨some [(32, 50)], some [(32, 100)], some []⟩⟩) ∧
    (Configuration.save cfgC6).2.fs.live = cfgC6.fs.live ∧
    (Configuration.save cfgC6).2.fs.intermediate = cfgC6.fs.intermediate := by
  refine ⟨?_, rfl, rfl⟩
  rfl

/-! ## C5: pad exhaustion -/

/-- C5 (against the code).  `_make_fuzz` with the pad exhausted raises
Python's IndexError, not PadShort: the general fact for any session whose pad
cannot supply `num` more bytes, plus the concrete end-to-end run — a 70-byte
pad of 0x01 bytes at offset 32 derives a head-fuzz length of 1, runs the pad
out while generating head fuzz inside `prepare_for_encryption`, and the whole
encryption fails with IndexError. -/
theorem make_fuzz_exhaustion_index_error :
    (∀ (num : Nat) (b : Bool) (s : PadSession), 0 < num →
        s.pad.length < s.pos + num →
        PadSession.make_fuzz num b s = .error .pyIndexError) ∧
    encoder_run z32fn id [4, 5, 6] [] (fun _ => 0) (List.replicate 70 1)
        zeroCfg false 32 [4, 5, 6] = .error .pyIndexError := by
  constructor
  · intro num b s hpos h
    have hlen : ((s.pad.drop s.pos).take num).length < num := by
      simp only [List.length_take, List.length_drop]
      omega
    simp only [PadSession.make_fuzz, PadSession.rand_bytes, PadSession.padRead]
    rw [if_pos hlen]
  · decide

/-- Witness for C5's general part at a concrete exhausted session. -/
theorem make_fuzz_exhaustion_witness :
    PadSession.make_fuzz 1 false (testSession []) = .error .pyIndexError :=
  make_fuzz_exhaustion_index_error.1 1 false (testSession []) (by decide) (by decide)

/-! ## C3: overlap rejection on encryption -/

theorem lastEnd_ge :
    ∀ (rest : List URange) (last : URange),
      List.Chain' (fun a b => a.1 + a.2 < b.1) (last :: rest) →
      (∀ q ∈ last :: rest, 0 ≤ q.2) →
      ∀ r ∈ last :: rest, r.1 + r.2 ≤ lastEnd last rest := by
  intro rest
  induction rest with
  | nil =>
    intro last _ _ r hr
    rcases List.mem_cons.1 hr with h | h
    · subst h; exact le_refl _
    · cases h
  | cons q rest ih =>
    intro last hch hnn r hr
    have hch' : List.Chain' (fun a b => a.1 + a.2 < b.1) (q :: rest) :=
      (List.chain'_cons.1 hch).2
    have hnn' : ∀ x ∈ q :: rest, 0 ≤ x.2 :=
      fun x hx => hnn x (List.mem_cons_of_mem _ hx)
    have hq : q.1 + q.2 ≤ lastEnd q rest := ih q hch' hnn' q (List.mem_cons_self _ _)
    rcases List.mem_cons.1 hr with h | h
    · subst h
      have h1 : r.1 + r.2 < q.1 := (List.chain'_cons.1 hch).1
      have h2 : 0 ≤ q.2 := hnn q (List.mem_cons_of_mem _ (List.mem_cons_self _ _))
      calc r.1 + r.2 ≤ q.1 + q.2 := by omega
        _ ≤ lastEnd q rest := hq
    · exact ih q hch' hnn' r h

theorem lastEnd_getLast :
    ∀ (rest : List URange) (last : URange) (a b : Int),
      (last :: rest).getLast? = some (a, b) → lastEnd last rest = a + b := by
  intro rest
  induction rest with
  | nil =>
    intro last a b h
    simp only [List.getLast?_singleton, Option.some.injEq] at h
    subst h
    rfl
  | cons q rest ih =>
    intro last a b h
    rw [List.getLast?_cons_cons] at h
    exact ih q a b h

theorem lastEnd_mem :
    ∀ (rest : List URange) (last : URange),
      ∃ r ∈ last :: rest, r.1 + r.2 = lastEnd last rest := by
  intro rest
  induction rest with
  | nil => intro last; exact ⟨last, List.mem_cons_self _ _, rfl⟩
  | cons q rest ih =>
    intro last
    obtain ⟨r, hr, he⟩ := ih q
    exact ⟨r, List.mem_cons_of_mem _ hr, he⟩

/-- The `_consolidate_used_ranges` walk on a consolidated (chained) list with
one appended range `(o, l)` and reconsumption forbidden: it errors exactly
when the last existing range's end extends strictly past `o`; at `o` equal to
that end it merges (output no longer than the input), and past it it appends. -/
theorem consolidateLoop_record :
    ∀ (rest : List URange) (last : URange) (acc : List URange) (o l : Int),
      List.Chain' (fun a b => a.1 + a.2 < b.1) (last :: rest) →
      ((o < lastEnd last rest →
          Configuration.consolidateLoop false (rest ++ [(o, l)]) (some last) acc =
            .error .configurationError) ∧
       (lastEnd last rest = o →
          ∃ out, Configuration.consolidateLoop false (rest ++ [(o, l)]) (some last) acc =
            .ok out ∧ out.length = acc.length + rest.length + 1) ∧
       (lastEnd last rest < o →
          ∃ out, Configuration.consolidateLoop false (rest ++ [(o, l)]) (some last) acc =
            .ok out ∧ out.length = acc.length + rest.length + 2)) := by
  intro rest
  induction rest with
  | nil =>
    intro last acc o l _
    obtain ⟨lo, ll⟩ := last
    simp only [lastEnd]
    refine ⟨?_, ?_, ?_⟩
    · intro hlt
      simp only [List.nil_append, Configuration.consolidateLoop]
      rw [if_pos (le_of_lt hlt), if_pos (by simp; exact hlt)]
    · intro heq
      simp only [List.nil_append, Configuration.consolidateLoop]
      rw [if_pos (by omega : (lo + ll ≥ o)), if_neg (by simp; omega)]
      exact ⟨_, rfl, by simp⟩
    · intro hlt
      simp only [List.nil_append, Configuration.consolidateLoop]
      rw [if_neg (by omega : ¬(lo + ll ≥ o))]
      exact ⟨_, rfl, by simp⟩
  | cons q rest ih =>
    intro last acc o l hch
    obtain ⟨lo, ll⟩ := last
    obtain ⟨qo, ql⟩ := q
    have hlt : lo + ll < qo := (List.chain'_cons.1 hch).1
    have hch' : List.Chain' (fun a b => a.1 + a.2 < b.1) ((qo, ql) :: rest) :=
      (List.chain'_cons.1 hch).2
    have hstep :
        Configuration.consolidateLoop false (((qo, ql) :: rest) ++ [(o, l)])
            (some (lo, ll)) acc =
          Configuration.consolidateLoop false (rest ++ [(o, l)]) (some (qo, ql))
            (acc ++ [(lo, ll)]) := by
      simp only [List.cons_append, Configuration.consolidateLoop]
      rw [if_neg (by omega)]
      rfl
    obtain ⟨h1, h2, h3⟩ := ih (qo, ql) (acc ++ [(lo, ll)]) o l hch'
    refine ⟨?_, ?_, ?_⟩
    · intro h
      rw [hstep]
      exact h1 h
    · intro h
      rw [hstep]
      obtain ⟨out, hout, hlen⟩ := h2 h
      exact ⟨out, hout, by simp at hlen; simp [hlen]; omega⟩
    · intro h
      rw [hstep]
      obtain ⟨out, hout, hlen⟩ := h3 h
      exact ⟨out, hout, by simp at hlen; simp [hlen]; omega⟩

/-- C3.  `record_consumed` with reconsumption forbidden, on a consolidated
used list (sorted, gaps between ranges, nonnegative lengths): appending
`(o, l)` raises a Configuration error whenever `o` lies strictly before the
end of some existing range (in particular, strictly inside one), while an `o`
at or past every range end succeeds; when `o` equals the last range's end
(mere touching) it succeeds by merging — the output has no more ranges than
the input. -/
theorem record_consumed_overlap_spec :
    ∀ (used : List URange) (o l : Int),
      List.Chain' (fun a b => a.1 + a.2 < b.1) used →
      (∀ r ∈ used, 0 ≤ r.2) →
      ((∃ r ∈ used, o < r.1 + r.2) →
          Configuration.record_consumed used o l false = .error .configurationError) ∧
      ((∀ r ∈ used, r.1 + r.2 ≤ o) →
          ∃ out, Configuration.record_consumed used o l false = .ok out) ∧
      (∀ a b : Int, used.getLast? = some (a, b) → a + b = o →
          ∃ out, Configuration.record_consumed used o l false = .ok out ∧
                 out.length = used.length) := by
  intro used o l hch hnn
  cases used with
  | nil =>
    refine ⟨?_, ?_, ?_⟩
    · rintro ⟨r, hr, -⟩
      cases hr
    · intro _
      exact ⟨[(o, l)], rfl⟩
    · intro a b h
      simp at h
  | cons u rest =>
    obtain ⟨uo, ul⟩ := u
    have hloop : Configuration.record_consumed ((uo, ul) :: rest) o l false =
        Configuration.consolidateLoop false (rest ++ [(o, l)]) (some (uo, ul)) [] := rfl
    obtain ⟨h1, h2, h3⟩ := consolidateLoop_record rest (uo, ul) [] o l hch
    refine ⟨?_, ?_, ?_⟩
    · rintro ⟨r, hr, hlt⟩
      rw [hloop]
      refine h1 ?_
      have := lastEnd_ge rest (uo, ul) hch hnn r hr
      omega
    · intro hall
      rw [hloop]
      obtain ⟨r, hr, he⟩ := lastEnd_mem rest (uo, ul)
      have hle : lastEnd (uo, ul) rest ≤ o := he ▸ hall r hr
      rcases eq_or_lt_of_le hle with heq | hlt
      · obtain ⟨out, hout, -⟩ := h2 heq
        exact ⟨out, hout⟩
      · obtain ⟨out, hout, -⟩ := h3 hlt
        exact ⟨out, hout⟩
    · intro a b hgl heq
      rw [hloop]
      obtain ⟨out, hout, hlen⟩ := h2 (by rw [lastEnd_getLast rest (uo, ul) a b hgl]; exact heq)
      exact ⟨out, hout, by simpa using hlen⟩

/-- Witness for C3 on the consolidated list `[(32,10),(50,5)]`: offset 51
(strictly inside the second range) is rejected; offset 55 (touching the last
range's end) merges without error. -/
theorem record_consumed_overlap_witness :
    Configuration.record_consumed [((32 : Int), 10), (50, 5)] 51 7 false =
      .error .configurationError ∧
    (∃ out, Configuration.record_consumed [((32 : Int), 10), (50, 5)] 55 7 false =
      .ok out ∧ out.length = 2) :=
  ⟨(record_consumed_overlap_spec [((32 : Int), 10), (50, 5)] 51 7
      (by rw [List.chain'_cons]; exact ⟨by norm_num, List.chain'_singleton _⟩)
      (by decide)).1 ⟨(50, 5), by decide, by decide⟩,
   (record_consumed_overlap_spec [((32 : Int), 10), (50, 5)] 55 7
      (by rw [List.chain'_cons]; exact ⟨by norm_num, List.chain'_singleton _⟩)
      (by decide)).2.2 50 5 rfl rfl⟩

/-! ## C7: fuzz length derivation -/

/-- C7.  `_get_fuzz_length_from_pad` with the default parameters (2 source
bytes, modulo 512) — used identically by `_make_inner_header` on encryption
and `_handle_inner_header` on decryption — computes the fuzz length as the
product of the two raw source bytes starting from 1, mod 512, and returns the
raw source bytes.  Zero is a possible result and is handled: on the all-zero
pad `padZ` both fuzz lengths derive to 0 and a full encrypt (`encoder_run`)
followed by decrypt (`decoder_run`) still succeeds and round-trips. -/
theorem fuzz_length_derivation :
    (∀ (s : PadSession) (b0 b1 : Nat) (rest : List Nat),
        s.pad.drop s.pos = b0 :: b1 :: rest →
        PadSession.get_fuzz_length_from_pad PadSession.default_fuzz_source_length
            PadSession.default_fuzz_source_modulo s =
          .ok (((1 * b0 * b1) % 512, [b0, b1]),
               { s with pos := s.pos + 2, length := s.length + 2 })) ∧
    encoder_run z32fn id [7, 8, 9] [] (fun _ => 0) padZ zeroCfg false 32 [7, 8, 9] =
      .ok (padZpieces, 73) ∧
    decoder_run z32fn id id (fun _ => 1) padZ zeroCfg false 32 padZpieces =
      .ok ([7, 8, 9], 73) := by
  refine ⟨?_, by decide, by decide⟩
  intro s b0 b1 rest h
  have hlen : s.pos + 2 ≤ s.pad.length := by
    have hl := congrArg List.length h
    simp only [List.length_drop, List.length_cons] at hl
    omega
  have htake : (b0 :: b1 :: rest).take 2 = [b0, b1] := rfl
  simp only [PadSession.get_fuzz_length_from_pad, PadSession.padRead,
    PadSession.default_fuzz_source_length, PadSession.default_fuzz_source_modulo,
    h, htake]
  rw [if_neg (by simp)]
  rw [Nat.min_eq_left hlen]
  rfl

/-- Witness for C7's general part: source bytes 3 and 5 give fuzz length
`1 * 3 * 5 % 512 = 15`. -/
theorem fuzz_length_derivation_witness :
    PadSession.get_fuzz_length_from_pad 2 512 (testSession [3, 5, 7]) =
      .ok ((15, [3, 5]), { testSession [3, 5, 7] with pos := 2, length := 2 }) :=
  fuzz_length_derivation.1 (testSession [3, 5, 7]) 3 5 [7] rfl

/-! ## C4: short initial chunk on decryption -/

/-- C4 (against the code).  Decryption is not split-invariant.  On the
all-zero pad, decoding the 41-byte ciphertext body in one piece succeeds and
yields the plaintext, but: a first piece of 1 byte crashes with Python's
IndexError (`ord(string[1])` in `_handle_inner_header`, OTP.py:1272), and a
first piece of 3 bytes counts the 3 unread fixed-header bytes as owed head
fuzz, double-consuming 3 pad bytes, so the digest unmask runs past the end of
the pad and dies with IndexError instead of producing the plaintext. -/
theorem decrypt_short_first_chunk_bug :
    decoder_run z32fn id id (fun _ => 1) padZ zeroCfg false 32 [padZbody] =
      .ok ([7, 8, 9], 73) ∧
    decoder_run z32fn id id (fun _ => 1) padZ zeroCfg false 32
        [padZbody.take 1, padZbody.drop 1] = .error .pyIndexError ∧
    decoder_run z32fn id id (fun _ => 1) padZ zeroCfg false 32
        [padZbody.take 3, padZbody.drop 3] = .error .pyIndexError := by
  refine ⟨by decide, by decide, by decide⟩



/-! ## C9: tail-reserve invariant on decryption -/

/-- One steady-state decrypting `convert` call (inner header and head fuzz
already consumed): the input is appended to the tail buffer, only the excess
beyond `digest_length + T = 32 + T` bytes is unmasked against fresh pad and
emitted, and the buffer keeps the rest; all session flags stay steady. -/
theorem convert_decrypt_steady_step
    (s : PadSession) (T : Nat) (c out : List Nat) (s' : PadSession)
    (hoff : s.offset.isSome = true)
    (hfl : s.formatLevel = some FormatLevel.internal)
    (hdec : s.decrypting = true) (henc : s.encrypting = false)
    (hbeg : s.begun = true) (hfr : s.fuzzRemainingToConsume = 0)
    (htf : s.tailFuzzLength = some T) (hhb : s.headBuffer = [])
    (hpos : s.pos ≤ s.pad.length)
    (hok : PadSession.convert c .internal s = .ok (out, s')) :
    out = List.zipWith (· ^^^ ·) ((s.tailBuffer ++ c).take ((s.tailBuffer ++ c).length - (32 + T)))
            ((s.pad.drop s.pos).take ((s.tailBuffer ++ c).length - (32 + T))) ∧
    s'.tailBuffer = (s.tailBuffer ++ c).drop ((s.tailBuffer ++ c).length - (32 + T)) ∧
    s'.pos = s.pos + ((s.tailBuffer ++ c).length - (32 + T)) ∧
    s'.pad = s.pad ∧
    s'.length = s.length + ((s.tailBuffer ++ c).length - (32 + T)) ∧
    s.pos + ((s.tailBuffer ++ c).length - (32 + T)) ≤ s.pad.length ∧
    s'.offset = s.offset ∧ s'.formatLevel = some FormatLevel.internal ∧
    s'.decrypting = true ∧ s'.encrypting = false ∧ s'.begun = true ∧
    s'.fuzzRemainingToConsume = 0 ∧ s'.tailFuzzLength = some T ∧
    s'.headBuffer = [] := by
  obtain ⟨o, ho⟩ := Option.isSome_iff_exists.1 hoff
  simp only [PadSession.convert, PadSession.convert_head_step,
    PadSession.convert_fuzz_step, PadSession.convert_tail_step,
    PadSession.padRead, PadSession.digest_length, ho, hfl, hdec, henc, hbeg,
    hfr, hhb, htf, ne_eq, not_true_eq_false, if_false, Bool.false_eq_true,
    false_and, and_false, if_true, not_false_eq_true, and_true, true_and,
    ite_false, ite_true, gt_iff_lt, lt_irrefl, List.nil_append] at hok
  rcases lt_or_ge (s.tailBuffer ++ c).length (32 + T) with hlt | hge
  · rw [if_pos hlt] at hok
    dsimp only at hok
    simp only [List.length_nil, List.take_zero, List.length_take,
      List.length_drop, Nat.lt_irrefl, if_false, List.zipWith_nil_left] at hok
    rw [if_neg (by simp)] at hok
    rw [Except.ok.injEq, Prod.mk.injEq] at hok
    obtain ⟨h1, h2⟩ := hok
    subst h1 h2
    have hm0 : (s.tailBuffer ++ c).length - (32 + T) = 0 := by omega
    rw [hm0]
    refine ⟨by simp, by simp, ?_, rfl, rfl, by omega, ho.symm, rfl, rfl, rfl,
      rfl, rfl, rfl, rfl⟩
    simpa using Nat.min_eq_left hpos
  · rw [if_neg (by omega)] at hok
    dsimp only at hok
    have hmlen : (List.take ((s.tailBuffer ++ c).length - (32 + T)) (s.tailBuffer ++ c)).length
        = (s.tailBuffer ++ c).length - (32 + T) := by
      simp only [List.length_take]
      omega
    rw [hmlen] at hok
    rcases lt_or_ge
        (List.take ((s.tailBuffer ++ c).length - (32 + T)) (List.drop s.pos s.pad)).length
        ((s.tailBuffer ++ c).length - (32 + T)) with hps | hps
    · rw [if_pos hps] at hok
      exact absurd hok (by simp)
    · rw [if_neg (by omega), if_neg (by simp)] at hok
      rw [Except.ok.injEq, Prod.mk.injEq] at hok
      obtain ⟨h1, h2⟩ := hok
      subst h1 h2
      have hpm : s.pos + ((s.tailBuffer ++ c).length - (32 + T)) ≤ s.pad.length := by
        simp only [List.length_take, List.length_drop] at hps
        omega
      refine ⟨rfl, rfl, ?_, rfl, rfl, hpm, ho.symm, rfl, rfl, rfl, rfl, rfl,
        rfl, rfl⟩
      exact Nat.min_eq_left hpm

theorem convert_chunks_steady :
    ∀ (cs : List (List Nat)) (s : PadSession) (T : Nat) (out : List Nat) (s' : PadSession),
      s.offset.isSome = true → s.formatLevel = some FormatLevel.internal →
      s.decrypting = true → s.encrypting = false → s.begun = true →
      s.fuzzRemainingToConsume = 0 → s.tailFuzzLength = some T →
      s.headBuffer = [] → s.pos ≤ s.pad.length → s.tailBuffer.length ≤ 32 + T →
      convert_chunks cs s = .ok (out, s') →
      s'.tailBuffer = (s.tailBuffer ++ cs.flatten).drop
          ((s.tailBuffer ++ cs.flatten).length - (32 + T)) ∧
      out = List.zipWith (· ^^^ ·)
          ((s.tailBuffer ++ cs.flatten).take ((s.tailBuffer ++ cs.flatten).length - (32 + T)))
          ((s.pad.drop s.pos).take ((s.tailBuffer ++ cs.flatten).length - (32 + T))) ∧
      s'.pad = s.pad := by
  intro cs
  induction cs with
  | nil =>
    intro s T out s' _ _ _ _ _ _ _ _ _ hbl hok
    simp only [convert_chunks] at hok
    rw [Except.ok.injEq, Prod.mk.injEq] at hok
    obtain ⟨h1, h2⟩ := hok
    subst h1 h2
    have hm0 : (s.tailBuffer ++ List.flatten ([] : List (List Nat))).length - (32 + T) = 0 := by
      simp only [List.flatten_nil, List.append_nil]
      omega
    rw [hm0]
    simp
  | cons c cs ih =>
    intro s T out s' hoff hfl hdec henc hbeg hfr htf hhb hpos hbl hok
    simp only [convert_chunks] at hok
    cases hc : PadSession.convert c .internal s with
    | error e =>
      rw [hc] at hok
      exact absurd hok (by simp)
    | ok p =>
      obtain ⟨o1, s1⟩ := p
      rw [hc] at hok
      dsimp only at hok
      cases hrec : convert_chunks cs s1 with
      | error e =>
        rw [hrec] at hok
        exact absurd hok (by simp)
      | ok q =>
        obtain ⟨o2, s2⟩ := q
        rw [hrec] at hok
        dsimp only at hok
        rw [Except.ok.injEq, Prod.mk.injEq] at hok
        obtain ⟨h1, h2⟩ := hok
        subst h1 h2
        obtain ⟨st_out, st_tb, st_pos, st_pad, st_len, st_avail, st_off, st_fl,
            st_dec, st_enc, st_beg, st_fr, st_tf, st_hb⟩ :=
          convert_decrypt_steady_step s T c o1 s1 hoff hfl hdec henc hbeg hfr
            htf hhb hpos hc
        have hoff1 : s1.offset.isSome = true := by rw [st_off]; exact hoff
        have hpos1 : s1.pos ≤ s1.pad.length := by rw [st_pos, st_pad]; exact st_avail
        have hbl1 : s1.tailBuffer.length ≤ 32 + T := by
          rw [st_tb]
          simp only [List.length_drop]
          omega
        obtain ⟨ih_tb, ih_out, ih_pad⟩ :=
          ih s1 T o2 s2 hoff1 st_fl st_dec st_enc st_beg st_fr st_tf st_hb
            hpos1 hbl1 hrec
        have hkey : s1.tailBuffer ++ cs.flatten =
            ((s.tailBuffer ++ c) ++ cs.flatten).drop
              ((s.tailBuffer ++ c).length - (32 + T)) := by
          rw [st_tb, List.drop_append_of_le_length (Nat.sub_le _ _)]
        have hm : ((s.tailBuffer ++ c) ++ cs.flatten).length - (32 + T) =
            ((s.tailBuffer ++ c).length - (32 + T)) +
              ((s1.tailBuffer ++ cs.flatten).length - (32 + T)) := by
          rw [hkey]
          simp only [List.length_drop, List.length_append]
          omega
        refine ⟨?_, ?_, by rw [ih_pad, st_pad]⟩
        · rw [List.flatten_cons, ← List.append_assoc, ih_tb, hkey, List.drop_drop]
          rw [hm, ← hkey]
        · have hlen1 : (List.take ((s.tailBuffer ++ c).length - (32 + T))
              (s.tailBuffer ++ c)).length =
              (List.take ((s.tailBuffer ++ c).length - (32 + T))
                (List.drop s.pos s.pad)).length := by
            simp only [List.length_take, List.length_drop]
            omega
          rw [List.flatten_cons, ← List.append_assoc, hm, List.take_add,
            List.take_add, List.take_append_of_le_length (Nat.sub_le _ _),
            List.drop_drop, ← hkey, ih_out, st_out, st_pad, st_pos]
          rw [List.zipWith_append _ _ _ _ _ hlen1]


/-- C9.  Tail-reserve invariant: starting from the post-header state (empty
tail buffer), for every sequence of convert calls that succeeds, the tail
buffer afterwards holds exactly the last `min(bytes received, 32 + T)` input
bytes, and what was emitted is exactly the unmasking (XOR with the next pad
bytes) of the input prefix beyond that reserve — so the final `32 + T` bytes
received (digest plus tail fuzz) are never emitted as plaintext.  Stated for
every chunk list, hence for every prefix of a run, i.e. after every call. -/
theorem tail_reserve_invariant
    (cs : List (List Nat)) (s : PadSession) (T : Nat) (out : List Nat) (s' : PadSession)
    (hoff : s.offset.isSome = true)
    (hfl : s.formatLevel = some FormatLevel.internal)
    (hdec : s.decrypting = true) (henc : s.encrypting = false)
    (hbeg : s.begun = true) (hfr : s.fuzzRemainingToConsume = 0)
    (htf : s.tailFuzzLength = some T) (hhb : s.headBuffer = [])
    (hpos : s.pos ≤ s.pad.length) (htb : s.tailBuffer = [])
    (hok : convert_chunks cs s = .ok (out, s')) :
    s'.tailBuffer = cs.flatten.drop (cs.flatten.length - (32 + T)) ∧
    s'.tailBuffer.length = min cs.flatten.length (32 + T) ∧
    out = List.zipWith (· ^^^ ·) (cs.flatten.take (cs.flatten.length - (32 + T)))
        ((s.pad.drop s.pos).take (cs.flatten.length - (32 + T))) := by
  have hbl : s.tailBuffer.length ≤ 32 + T := by rw [htb]; simp
  obtain ⟨h1, h2, -⟩ :=
    convert_chunks_steady cs s T out s' hoff hfl hdec henc hbeg hfr htf hhb
      hpos hbl hok
  rw [htb, List.nil_append] at h1 h2
  refine ⟨h1, ?_, h2⟩
  rw [h1]
  simp only [List.length_drop]
  omega

/-- Witness for C9: a steady decrypting session on the all-zero pad with
`T = 0` fed 40 bytes in two chunks of 20 keeps exactly the last 32 bytes
buffered and emits the unmasked first 8. -/
theorem tail_reserve_invariant_witness :
    ∃ out s',
      convert_chunks [List.replicate 20 1, List.replicate 20 2] sC9 = .ok (out, s') ∧
      s'.tailBuffer = List.replicate 12 1 ++ List.replicate 20 2 ∧
      out = List.replicate 8 1 := by
  cases hr : convert_chunks [List.replicate 20 1, List.replicate 20 2] sC9 with
  | error e =>
    have hne : (convert_chunks [List.replicate 20 1, List.replicate 20 2] sC9).toOption.isSome
        = true := by decide
    rw [hr] at hne
    simp [Except.toOption] at hne
  | ok p =>
    obtain ⟨out, s'⟩ := p
    have hmain := tail_reserve_invariant [List.replicate 20 1, List.replicate 20 2]
      sC9 0 out s' (by decide) (by decide) (by decide) (by decide) (by decide)
      (by decide) (by decide) (by decide) (by decide) (by decide) hr
    refine ⟨out, s', rfl, ?_, ?_⟩
    · rw [hmain.1]
      decide
    · rw [hmain.2.2]
      decide

/-! ## C1 groundwork: pointwise characterizations of the session steps -/

theorem drop_cons_byteAt {K : List Nat} {i : Nat} (h : i < K.length) :
    K.drop i = byteAt K i :: K.drop (i + 1) := by
  rw [List.drop_eq_getElem_cons h, byteAt, List.getD_eq_getElem K 0 h]

theorem maskSlice_length {x K : List Nat} {pos : Nat} (h : pos + x.length ≤ K.length) :
    (maskSlice x K pos).length = x.length := by
  simp only [maskSlice, List.length_zipWith, List.length_take, List.length_drop]
  omega

theorem maskSlice_maskSlice {x K : List Nat} {pos : Nat}
    (h : pos + x.length ≤ K.length) :
    maskSlice (maskSlice x K pos) K pos = x := by
  have hlen : (List.zipWith (· ^^^ ·) x ((K.drop pos).take x.length)).length
      = x.length := by simpa [maskSlice] using maskSlice_length h
  simp only [maskSlice]
  rw [hlen]
  have : ∀ (a b : List Nat), a.length = b.length →
      List.zipWith (· ^^^ ·) (List.zipWith (· ^^^ ·) a b) b = a := by
    intro a
    induction a with
    | nil => intro b _; simp
    | cons x xs ih =>
      intro b hb
      cases b with
      | nil => simp at hb
      | cons y ys =>
        simp only [List.zipWith_cons_cons, Nat.xor_assoc, Nat.xor_self,
          Nat.xor_zero, List.cons.injEq, true_and]
        exact ih ys (by simpa using hb)
  apply this
  simp only [List.length_take, List.length_drop]
  omega

/-- `_get_fuzz_length_from_pad` at any state, as an if-characterization. -/
theorem get_fuzz_length_spec (num modulo : Nat) (s : PadSession) :
    PadSession.get_fuzz_length_from_pad num modulo s =
      if num ≤ s.pad.length - s.pos then
        .ok ((((s.pad.drop s.pos).take num).foldl (fun a x => a * x) 1 % modulo, (s.pad.drop s.pos).take num), { s with pos := min (s.pos + num) s.pad.length, length := s.length + num })
      else .error .padShort := by
  simp only [PadSession.get_fuzz_length_from_pad, PadSession.padRead]
  by_cases h : num ≤ s.pad.length - s.pos
  · have hA : ¬(((s.pad.drop s.pos).take num).length < num) := by
      simp only [List.length_take, List.length_drop]
      omega
    rw [if_pos h, if_neg hA]
  · have hA : ((s.pad.drop s.pos).take num).length < num := by
      simp only [List.length_take, List.length_drop]
      omega
    rw [if_neg h, if_pos hA]

/-- `_initialize_hash` at a state with no hash yet. -/
theorem init_hash_spec (s : PadSession) (o : Nat)
    (hoff : s.offset = some o) (hsh : s.sessionHash = none) :
    PadSession.init_hash s =
      if o + 32 < s.pad.length then
        .ok { s with pos := min (s.pos + 32) s.pad.length, length := s.length + 32, sessionHash := some ((s.pad.drop s.pos).take 32) }
      else .error .padShort := by
  simp only [PadSession.init_hash, PadSession.padRead, PadSession.digest_gulp,
    PadSession.digest_source_length, hoff, hsh, Option.isSome_none,
    Bool.false_eq_true, if_false, List.nil_append]
  by_cases h : o + 32 < s.pad.length
  · rw [if_neg (by omega), if_pos h]
  · rw [if_pos (by omega), if_neg h]

/-- `_make_fuzz` with `is_head_fuzz` false. -/
theorem make_fuzz_plain_spec (num : Nat) (s : PadSession) :
    PadSession.make_fuzz num false s =
      if num ≤ s.pad.length - s.pos then
        .ok (maskSlice (rndBytes s.rnd s.rndPos num) s.pad s.pos, { s with pos := min (s.pos + num) s.pad.length, length := s.length + num, rndPos := s.rndPos + num })
      else .error .pyIndexError := by
  simp only [PadSession.make_fuzz, PadSession.rand_bytes, PadSession.padRead,
    Bool.false_eq_true, if_false]
  by_cases h : num ≤ s.pad.length - s.pos
  · have hA : ¬(((s.pad.drop s.pos).take num).length < num) := by
      simp only [List.length_take, List.length_drop]
      omega
    rw [if_pos h, if_neg hA]
    simp only [maskSlice, rndBytes, List.length_map, List.length_range]
  · have hA : ((s.pad.drop s.pos).take num).length < num := by
      simp only [List.length_take, List.length_drop]
      omega
    rw [if_neg h, if_pos hA]

/-- `_make_fuzz` with `is_head_fuzz` true, at a state with a live hash. -/
theorem make_fuzz_head_spec (num : Nat) (s : PadSession) (tr : List Nat)
    (hsh : s.sessionHash = some tr) :
    PadSession.make_fuzz num true s =
      if num ≤ s.pad.length - s.pos then
        .ok (maskSlice (rndBytes s.rnd s.rndPos num) s.pad s.pos, { s with pos := min (s.pos + num) s.pad.length, length := s.length + num, rndPos := s.rndPos + num, sessionHash := some (tr ++ rndBytes s.rnd s.rndPos num) })
      else .error .pyIndexError := by
  simp only [PadSession.make_fuzz, PadSession.rand_bytes, PadSession.padRead,
    PadSession.digest_gulp, hsh, if_true]
  by_cases h : num ≤ s.pad.length - s.pos
  · have hA : ¬(((s.pad.drop s.pos).take num).length < num) := by
      simp only [List.length_take, List.length_drop]
      omega
    rw [if_pos h, if_neg hA]
    simp only [maskSlice, rndBytes, List.length_map, List.length_range]
  · have hA : ((s.pad.drop s.pos).take num).length < num := by
      simp only [List.length_take, List.length_drop]
      omega
    rw [if_neg h, if_pos hA]

/-- `convert` at the internal level for an encrypting session: the inner
blocks all pass through, the surviving bytes are XOR-masked against fresh pad
(PadShort when the pad cannot supply them), and any buffered inner header is
prepended and cleared. -/
theorem convert_enc_spec (x : List Nat) (s : PadSession)
    (hoff : s.offset.isSome = true)
    (hfl : s.formatLevel = none ∨ s.formatLevel = some FormatLevel.internal)
    (henc : s.encrypting = true) (hdec : s.decrypting = false)
    (hfr : s.fuzzRemainingToConsume = 0) (hpos : s.pos ≤ s.pad.length) :
    PadSession.convert x .internal s =
      if x.length ≤ s.pad.length - s.pos then
        .ok (s.headBuffer ++ maskSlice x s.pad s.pos, { s with formatLevel := some FormatLevel.internal, pos := s.pos + x.length, length := s.length + x.length, begun := true, headBuffer := [] })
      else .error .padShort := by
  obtain ⟨o, ho⟩ := Option.isSome_iff_exists.1 hoff
  rcases hfl with hfl | hfl <;>
  · simp only [PadSession.convert, PadSession.convert_head_step,
      PadSession.convert_fuzz_step, PadSession.convert_tail_step,
      PadSession.padRead, ho, hfl, henc, hdec, hfr, Bool.true_and,
      Bool.false_eq_true, Bool.true_eq_false, and_false, false_and, and_true,
      not_true_eq_false, not_false_eq_true, true_and, if_false, if_true,
      ite_self, ne_eq, gt_iff_lt, Nat.lt_irrefl, List.nil_append]
    by_cases h : x.length ≤ s.pad.length - s.pos
    · have hA : ¬(((s.pad.drop s.pos).take x.length).length < x.length) := by
        simp only [List.length_take, List.length_drop]
        omega
      rw [if_pos h, if_neg hA, Nat.min_eq_left (by omega)]
      by_cases hb : s.headBuffer = []
      · rw [hb]
        simp only [not_true_eq_false, if_false, List.nil_append, maskSlice]
      · rw [if_pos (by simpa using hb)]
        simp only [maskSlice]
    · have hA : ((s.pad.drop s.pos).take x.length).length < x.length := by
        simp only [List.length_take, List.length_drop]
        omega
      rw [if_neg h, if_pos hA]

theorem make_inner_header_spec (s : PadSession) (o : Nat)
    (hoff : s.offset = some o) (hpos : s.pos = o) (hsh : s.sessionHash = none)
    (h33 : o + 32 < s.pad.length) :
    PadSession.make_inner_header s =
      if min (o + 38) s.pad.length + headFuzzLen s.pad o ≤ s.pad.length then
        .ok (byteAt s.pad o :: byteAt s.pad (o + 1) ::
              ((s.pad.drop (o + 2)).take 2 ++ (s.pad.drop (o + 4)).take 2 ++
               maskSlice (rndBytes s.rnd s.rndPos (headFuzzLen s.pad o)) s.pad
                 (min (o + 38) s.pad.length)),
             { s with pos := min (o + 38) s.pad.length + headFuzzLen s.pad o, length := s.length + 38 + headFuzzLen s.pad o, sessionHash := some ((s.pad.drop (o + 6)).take 32 ++ rndBytes s.rnd s.rndPos (headFuzzLen s.pad o)), tailFuzzLength := some (tailFuzzLen s.pad o), tailFuzzLengthSourceBytes := (s.pad.drop (o + 4)).take 2, rndPos := s.rndPos + headFuzzLen s.pad o })
      else .error .pyIndexError := by
  have h1 : List.take 1 (List.drop o s.pad) = [byteAt s.pad o] := by
    rw [drop_cons_byteAt (by omega)]
    rfl
  have h2 : List.take 1 (List.drop (o + 1) s.pad) = [byteAt s.pad (o + 1)] := by
    rw [drop_cons_byteAt (by omega)]
    rfl
  have hmin1 : min (o + 1) s.pad.length = o + 1 := Nat.min_eq_left (by omega)
  have hmin2 : min (o + 1 + 1) s.pad.length = o + 2 := Nat.min_eq_left (by omega)
  simp only [PadSession.make_inner_header, PadSession.padRead,
    PadSession.default_fuzz_source_length, PadSession.default_fuzz_source_modulo,
    hoff, hpos, h1, h2, hmin1, hmin2, hsh]
  rw [get_fuzz_length_spec]
  dsimp only
  rw [if_pos (show 2 ≤ s.pad.length - (o + 2) by omega)]
  dsimp only
  rw [show (o + 2 + 2) ⊓ s.pad.length = o + 4 by omega]
  rw [get_fuzz_length_spec]
  dsimp only
  rw [if_pos (show 2 ≤ s.pad.length - (o + 4) by omega)]
  dsimp only
  rw [show (o + 4 + 2) ⊓ s.pad.length = o + 6 by omega]
  rw [init_hash_spec _ o rfl rfl]
  rw [if_pos h33]
  dsimp only
  rw [show o + 6 + 32 = o + 38 by omega]
  rw [make_fuzz_head_spec _ _ _ rfl]
  dsimp only
  rw [show (List.foldl (fun a x => a * x) 1 (List.take 2 (List.drop (o + 2) s.pad)) % 512 : Nat) = headFuzzLen s.pad o from rfl,
     show (List.foldl (fun a x => a * x) 1 (List.take 2 (List.drop (o + 4) s.pad)) % 512 : Nat) = tailFuzzLen s.pad o from rfl]
  by_cases hc : headFuzzLen s.pad o ≤ s.pad.length - (o + 38) ⊓ s.pad.length
  · rw [if_pos hc, if_pos (show (o + 38) ⊓ s.pad.length + headFuzzLen s.pad o ≤ s.pad.length by omega)]
    dsimp only
    rw [show ((o + 38) ⊓ s.pad.length + headFuzzLen s.pad o) ⊓ s.pad.length = (o + 38) ⊓ s.pad.length + headFuzzLen s.pad o by omega]
    simp only [Except.ok.injEq, Prod.mk.injEq, PadSession.mk.injEq, Nat.zero_xor,
      List.cons.injEq]
  · rw [if_neg hc, if_neg (show ¬((o + 38) ⊓ s.pad.length + headFuzzLen s.pad o ≤ s.pad.length) by omega)]

theorem maskSlice_append {a b K : List Nat} {pos : Nat}
    (h : pos + a.length ≤ K.length) :
    maskSlice (a ++ b) K pos = maskSlice a K pos ++ maskSlice b K (pos + a.length) := by
  simp only [maskSlice, List.length_append]
  rw [List.take_add, ← List.drop_drop]
  rw [List.zipWith_append _ _ _ _ _ (by simp only [List.length_take, List.length_drop]; omega)]

theorem convert_decrypt_steady_fwd (s : PadSession) (T : Nat) (c : List Nat)
    (hoff : s.offset.isSome = true)
    (hfl : s.formatLevel = some FormatLevel.internal)
    (hdec : s.decrypting = true) (henc : s.encrypting = false)
    (hbeg : s.begun = true) (hfr : s.fuzzRemainingToConsume = 0)
    (htf : s.tailFuzzLength = some T) (hhb : s.headBuffer = [])
    (hfit : s.pos + ((s.tailBuffer ++ c).length - (32 + T)) ≤ s.pad.length) :
    PadSession.convert c .internal s =
      .ok (maskSlice ((s.tailBuffer ++ c).take ((s.tailBuffer ++ c).length - (32 + T))) s.pad s.pos,
           { s with tailBuffer := (s.tailBuffer ++ c).drop ((s.tailBuffer ++ c).length - (32 + T)), pos := s.pos + ((s.tailBuffer ++ c).length - (32 + T)), length := s.length + ((s.tailBuffer ++ c).length - (32 + T)), begun := true }) := by
  obtain ⟨o, ho⟩ := Option.isSome_iff_exists.1 hoff
  simp only [PadSession.convert, PadSession.convert_head_step,
    PadSession.convert_fuzz_step, PadSession.convert_tail_step,
    PadSession.padRead, PadSession.digest_length, maskSlice, ho, hfl, hdec, henc, hbeg,
    hfr, hhb, htf, ne_eq, not_true_eq_false, if_false, Bool.false_eq_true,
    false_and, and_false, if_true, not_false_eq_true, and_true, true_and,
    ite_false, ite_true, gt_iff_lt, lt_irrefl, List.nil_append]
  rcases lt_or_ge (s.tailBuffer ++ c).length (32 + T) with hlt | hge
  · rw [if_pos hlt]
    dsimp only
    have hm0 : (s.tailBuffer ++ c).length - (32 + T) = 0 := by omega
    simp only [List.length_nil, List.take_zero, List.length_take,
      List.length_drop, Nat.lt_irrefl, if_false, List.zipWith_nil_left,
      List.zipWith_nil_right, hm0, List.drop_zero, Nat.add_zero]
    rw [if_neg (by simp)]
    rw [Except.ok.injEq, Prod.mk.injEq]
    refine ⟨by simp, ?_⟩
    have : min s.pos s.pad.length = s.pos := Nat.min_eq_left (by omega)
    simp only [this]
  · rw [if_neg (by omega)]
    dsimp only
    have hmlen : (List.take ((s.tailBuffer ++ c).length - (32 + T)) (s.tailBuffer ++ c)).length
        = (s.tailBuffer ++ c).length - (32 + T) := by
      simp only [List.length_take]
      omega
    rw [hmlen]
    rw [if_neg (by simp only [List.length_take, List.length_drop]; omega)]
    rw [if_neg (by simp)]
    rw [Except.ok.injEq, Prod.mk.injEq]
    refine ⟨rfl, ?_⟩
    rw [Nat.min_eq_left hfit]

theorem make_inner_header_err (s : PadSession) (o : Nat)
    (hoff : s.offset = some o) (hpos : s.pos = o)
    (h : s.pad.length ≤ o + 32) :
    ∃ e, PadSession.make_inner_header s = .error e := by
  by_cases ho : o < s.pad.length
  · have h1 : List.take 1 (List.drop o s.pad) = [byteAt s.pad o] := by
      rw [drop_cons_byteAt (by omega)]
      rfl
    by_cases ho1 : o + 1 < s.pad.length
    · have h2 : List.take 1 (List.drop (o + 1) s.pad) = [byteAt s.pad (o + 1)] := by
        rw [drop_cons_byteAt (by omega)]
        rfl
      have hmin1 : min (o + 1) s.pad.length = o + 1 := Nat.min_eq_left (by omega)
      have hmin2 : min (o + 1 + 1) s.pad.length = o + 2 := Nat.min_eq_left (by omega)
      simp only [PadSession.make_inner_header, PadSession.padRead,
        PadSession.default_fuzz_source_length, PadSession.default_fuzz_source_modulo,
        hoff, hpos, h1, h2, hmin1, hmin2, get_fuzz_length_spec]
      try dsimp only
      by_cases hc1 : 2 ≤ s.pad.length - (o + 2)
      · simp only [if_pos hc1]
        try dsimp only
        simp only [show (o + 2 + 2) ⊓ s.pad.length = o + 4 by omega]
        by_cases hc2 : 2 ≤ s.pad.length - (o + 4)
        · simp only [if_pos hc2]
          try dsimp only
          simp only [PadSession.init_hash, PadSession.digest_source_length]
          try dsimp only
          simp only [if_pos (show o + 32 ≥ s.pad.length by omega)]
          exact ⟨_, rfl⟩
        · simp only [if_neg hc2]
          exact ⟨_, rfl⟩
      · simp only [if_neg hc1]
        exact ⟨_, rfl⟩
    · have hmin1 : min (o + 1) s.pad.length = o + 1 := Nat.min_eq_left (by omega)
      have h2 : List.take 1 (List.drop (o + 1) s.pad) = [] := by
        rw [List.drop_eq_nil_of_le (by omega), List.take_nil]
      simp only [PadSession.make_inner_header, PadSession.padRead, hoff, hpos,
        h1, hmin1, h2]
      exact ⟨_, rfl⟩
  · have h1 : List.take 1 (List.drop o s.pad) = [] := by
      rw [List.drop_eq_nil_of_le (by omega), List.take_nil]
    simp only [PadSession.make_inner_header, PadSession.padRead, hoff, hpos, h1]
    exact ⟨_, rfl⟩

theorem drop_len_append {α : Type} (n : Nat) (a b : List α) (h : a.length = n) :
    (a ++ b).drop n = b := by
  subst h
  exact List.drop_left a b

theorem take_len_append {α : Type} (n : Nat) (a b : List α) (h : a.length = n) :
    (a ++ b).take n = a := by
  subst h
  exact List.take_left a b

/-- `_consume_fuzz_bytes` with head fuzz, an exact-`num` prefix present and
enough pad: consumes the prefix, unmasks it against the pad and feeds the
result to the hash. -/
theorem consume_fuzz_head_spec (num : Nat) (str rest2 : List Nat) (s : PadSession)
    (tr : List Nat) (hsh : s.sessionHash = some tr) (hstr : str.length = num)
    (hfit : s.pos + num ≤ s.pad.length) :
    PadSession.consume_fuzz_bytes num (str ++ rest2) true s =
      .ok ((0, rest2), { s with pos := s.pos + num, length := s.length + num, sessionHash := some (tr ++ maskSlice str s.pad s.pos) }) := by
  have hlen : (str ++ rest2).length = num + rest2.length := by
    simp [List.length_append, hstr]
  simp only [PadSession.consume_fuzz_bytes, PadSession.padRead,
    PadSession.digest_gulp, hsh, hlen, if_true]
  rw [show (num + rest2.length) ⊓ num = num by omega]
  rw [if_neg (by simp only [List.length_take, List.length_drop]; omega)]
  rw [take_len_append num str rest2 hstr, drop_len_append num str rest2 hstr]
  rw [show num - (num + rest2.length) = 0 by omega]
  rw [show min (s.pos + num) s.pad.length = s.pos + num by omega]
  rw [Except.ok.injEq, Prod.mk.injEq]
  refine ⟨rfl, ?_⟩
  simp only [maskSlice, hstr]

theorem handle_inner_header_spec (s : PadSession) (o : Nat) (rnd2 : Nat → Nat)
    (rest : List Nat)
    (hoff : s.offset = some o) (hpos : s.pos = o) (hsh : s.sessionHash = none)
    (hfit : o + 38 + headFuzzLen s.pad o ≤ s.pad.length) :
    PadSession.handle_inner_header (innerHeaderSpec s.pad o rnd2 ++ rest) s =
      .ok ((rest, 0),
        { s with pos := o + 38 + headFuzzLen s.pad o, length := s.length + 38 + headFuzzLen s.pad o, sessionHash := some (hashSeedSpec s.pad o ++ rndBytes rnd2 0 (headFuzzLen s.pad o)), tailFuzzLength := some (tailFuzzLen s.pad o), tailFuzzLengthSourceBytes := (s.pad.drop (o + 4)).take 2 }) := by
  have h1 : List.take 1 (List.drop o s.pad) = [byteAt s.pad o] := by
    rw [drop_cons_byteAt (by omega)]
    rfl
  have h2 : List.take 1 (List.drop (o + 1) s.pad) = [byteAt s.pad (o + 1)] := by
    rw [drop_cons_byteAt (by omega)]
    rfl
  have hmin1 : min (o + 1) s.pad.length = o + 1 := Nat.min_eq_left (by omega)
  have hmin2 : min (o + 1 + 1) s.pad.length = o + 2 := Nat.min_eq_left (by omega)
  simp only [innerHeaderSpec, List.cons_append]
  simp only [PadSession.handle_inner_header, PadSession.padRead,
    PadSession.default_fuzz_source_length, PadSession.default_fuzz_source_modulo,
    hoff, hpos, h1, h2, hmin1, hmin2, hsh, get_fuzz_length_spec]
  simp only [Nat.xor_self]
  rw [if_pos trivial]
  rw [if_pos (show (0 : Nat) &&& 1 = 0 by decide)]
  rw [if_pos (show 2 ≤ s.pad.length - (o + 2) by omega)]
  dsimp only
  rw [show (o + 2 + 2) ⊓ s.pad.length = o + 4 by omega]
  rw [if_pos (show 2 ≤ s.pad.length - (o + 4) by omega)]
  dsimp only
  rw [show (o + 4 + 2) ⊓ s.pad.length = o + 6 by omega]
  rw [init_hash_spec _ o rfl rfl]
  rw [if_pos (show o + 32 < s.pad.length by omega)]
  dsimp only
  rw [show o + 6 + 32 = o + 38 by omega]
  rw [show (List.foldl (fun a x => a * x) 1 (List.take 2 (List.drop (o + 2) s.pad)) % 512 : Nat) = headFuzzLen s.pad o from rfl,
     show (List.foldl (fun a x => a * x) 1 (List.take 2 (List.drop (o + 4) s.pad)) % 512 : Nat) = tailFuzzLen s.pad o from rfl]
  rw [show (o + 38) ⊓ s.pad.length = o + 38 by omega]
  have hs1 : (List.take 2 (List.drop (o + 2) s.pad)).length = 2 := by
    simp only [List.length_take, List.length_drop]
    omega
  have hs2 : (List.take 2 (List.drop (o + 4) s.pad)).length = 2 := by
    simp only [List.length_take, List.length_drop]
    omega
  have hrb : (rndBytes rnd2 0 (headFuzzLen s.pad o)).length = headFuzzLen s.pad o := by
    simp [rndBytes]
  have hmhf : (maskSlice (rndBytes rnd2 0 (headFuzzLen s.pad o)) s.pad (o + 38)).length
      = headFuzzLen s.pad o := by
    rw [maskSlice_length (by rw [hrb]; omega), hrb]
  have hdrop6 : List.drop (2 + 2 * 2)
      (byteAt s.pad o :: byteAt s.pad (o + 1) ::
        (((List.take 2 (List.drop (o + 2) s.pad) ++ List.take 2 (List.drop (o + 4) s.pad)) ++
            maskSlice (rndBytes rnd2 0 (headFuzzLen s.pad o)) s.pad (o + 38)) ++ rest))
      = maskSlice (rndBytes rnd2 0 (headFuzzLen s.pad o)) s.pad (o + 38) ++ rest := by
    show List.drop 4
      (((List.take 2 (List.drop (o + 2) s.pad) ++ List.take 2 (List.drop (o + 4) s.pad)) ++
          maskSlice (rndBytes rnd2 0 (headFuzzLen s.pad o)) s.pad (o + 38)) ++ rest) = _
    rw [List.append_assoc, List.append_assoc]
    rw [show (4 : Nat) = 2 + 2 from rfl, ← List.drop_drop]
    rw [drop_len_append 2 _ _ hs1, drop_len_append 2 _ _ hs2]
  rw [hdrop6]
  rw [consume_fuzz_head_spec _ _ _ _ _ rfl hmhf (by exact hfit)]
  dsimp only
  rw [maskSlice_maskSlice (by rw [hrb]; omega)]
  rw [if_neg (by decide)]
  rw [if_neg (show ¬((byteAt s.pad o :: byteAt s.pad (o + 1) ::
        (List.take 2 (List.drop (o + 2) s.pad) ++ List.take 2 (List.drop (o + 4) s.pad) ++
          maskSlice (rndBytes rnd2 0 (headFuzzLen s.pad o)) s.pad (o + 38) ++ rest)).length
      < 2 + 2 * 2 + headFuzzLen s.pad o) by
    simp only [List.length_cons, List.length_append, hs1, hs2, hmhf]
    omega)]
  have hfinal : List.drop (2 + 2 * 2 + headFuzzLen s.pad o)
      (byteAt s.pad o :: byteAt s.pad (o + 1) ::
        (((List.take 2 (List.drop (o + 2) s.pad) ++ List.take 2 (List.drop (o + 4) s.pad)) ++
            maskSlice (rndBytes rnd2 0 (headFuzzLen s.pad o)) s.pad (o + 38)) ++ rest))
      = rest := by
    rw [show 2 + 2 * 2 + headFuzzLen s.pad o = headFuzzLen s.pad o + 4 + 1 + 1 by omega]
    rw [List.drop_succ_cons, List.drop_succ_cons]
    rw [List.append_assoc, List.append_assoc]
    rw [show headFuzzLen s.pad o + 4 = 2 + (2 + headFuzzLen s.pad o) by omega]
    rw [← List.drop_drop]
    rw [drop_len_append 2 _ _ hs1]
    rw [← List.drop_drop]
    rw [drop_len_append 2 _ _ hs2]
    rw [drop_len_append _ _ _ hmhf]
  rw [hfinal]
  rfl

/-- `handle_inner_header_spec` with the pad named separately, for rewriting
at record-literal states. -/
theorem handle_inner_header_specK (K : List Nat) (s : PadSession) (o : Nat)
    (rnd2 : Nat → Nat) (rest : List Nat) (hpad : s.pad = K)
    (hoff : s.offset = some o) (hpos : s.pos = o) (hsh : s.sessionHash = none)
    (hfit : o + 38 + headFuzzLen K o ≤ K.length) :
    PadSession.handle_inner_header (innerHeaderSpec K o rnd2 ++ rest) s =
      .ok ((rest, 0), { s with pos := o + 38 + headFuzzLen K o, length := s.length + 38 + headFuzzLen K o, sessionHash := some (hashSeedSpec K o ++ rndBytes rnd2 0 (headFuzzLen K o)), tailFuzzLength := some (tailFuzzLen K o), tailFuzzLengthSourceBytes := (K.drop (o + 4)).take 2 }) := by
  subst hpad
  exact handle_inner_header_spec s o rnd2 rest hoff hpos hsh hfit

theorem convert_first_dec_spec (s : PadSession) (o : Nat) (rnd2 : Nat → Nat)
    (rest : List Nat)
    (hoff : s.offset = some o) (hpos : s.pos = o) (hsh : s.sessionHash = none)
    (hfl : s.formatLevel = none) (hdec : s.decrypting = true)
    (henc : s.encrypting = false) (hbeg : s.begun = false)
    (hfr : s.fuzzRemainingToConsume = 0) (htb : s.tailBuffer = [])
    (hhb : s.headBuffer = [])
    (hfit : o + 38 + headFuzzLen s.pad o ≤ s.pad.length)
    (hfit2 : o + 38 + headFuzzLen s.pad o + (rest.length - (32 + tailFuzzLen s.pad o)) ≤ s.pad.length) :
    PadSession.convert (innerHeaderSpec s.pad o rnd2 ++ rest) .internal s =
      .ok (maskSlice (rest.take (rest.length - (32 + tailFuzzLen s.pad o))) s.pad (o + 38 + headFuzzLen s.pad o),
        { s with formatLevel := some FormatLevel.internal, pos := o + 38 + headFuzzLen s.pad o + (rest.length - (32 + tailFuzzLen s.pad o)), length := s.length + 38 + headFuzzLen s.pad o + (rest.length - (32 + tailFuzzLen s.pad o)), sessionHash := some (hashSeedSpec s.pad o ++ rndBytes rnd2 0 (headFuzzLen s.pad o)), tailFuzzLength := some (tailFuzzLen s.pad o), tailFuzzLengthSourceBytes := (s.pad.drop (o + 4)).take 2, tailBuffer := rest.drop (rest.length - (32 + tailFuzzLen s.pad o)), begun := true }) := by
  simp only [PadSession.convert, hoff, hfl]
  rw [if_pos trivial]
  rw [if_neg (by rw [henc]; simp)]
  rw [if_neg (by rw [hdec]; simp)]
  simp only [PadSession.convert_head_step, hbeg, hdec, henc, hfr, htb, hhb,
    Bool.false_eq_true, not_false_eq_true, if_true, if_false]
  rw [handle_inner_header_specK s.pad _ o rnd2 rest (by dsimp only) (by dsimp only)
    (by dsimp only; exact hpos) (by dsimp only; exact hsh) (by exact hfit)]
  dsimp only
  rw [if_neg (by simp)]
  rw [if_neg (by simp)]
  try dsimp only
  simp only [PadSession.convert_fuzz_step]
  try dsimp only
  rw [if_neg (by exact lt_irrefl 0)]
  try dsimp only
  simp only [PadSession.convert_tail_step]
  try dsimp only
  rw [if_pos trivial]
  try dsimp only
  simp only [List.nil_append, PadSession.digest_length]
  rcases lt_or_ge rest.length (32 + tailFuzzLen s.pad o) with hlt | hge
  · rw [if_pos hlt]
    dsimp only [PadSession.padRead]
    simp only [List.length_nil, List.take_zero, List.length_take, List.length_drop,
      List.zipWith_nil_left, Nat.add_zero, lt_irrefl, if_false]
    rw [if_neg (by simp)]
    rw [show rest.length - (32 + tailFuzzLen s.pad o) = 0 by omega]
    simp only [List.take_zero, List.drop_zero, maskSlice, List.zipWith_nil_left,
      Nat.add_zero, List.length_nil]
    rw [Except.ok.injEq, Prod.mk.injEq]
    refine ⟨rfl, ?_⟩
    rw [show (o + 38 + headFuzzLen s.pad o) ⊓ s.pad.length = o + 38 + headFuzzLen s.pad o by omega]
  · rw [if_neg (by omega)]
    dsimp only [PadSession.padRead]
    have htl : (rest.take (rest.length - (32 + tailFuzzLen s.pad o))).length
        = rest.length - (32 + tailFuzzLen s.pad o) := by
      simp only [List.length_take]
      omega
    rw [htl]
    rw [if_neg (by simp only [List.length_take, List.length_drop]; omega)]
    rw [if_neg (by simp)]
    rw [Except.ok.injEq, Prod.mk.injEq]
    constructor
    · rw [maskSlice, htl]
    · rw [show (o + 38 + headFuzzLen s.pad o + (rest.length - (32 + tailFuzzLen s.pad o))) ⊓ s.pad.length = o + 38 + headFuzzLen s.pad o + (rest.length - (32 + tailFuzzLen s.pad o)) by omega]

theorem take_len_add_append {α : Type} (n i : Nat) (a b : List α) (h : a.length = n) :
    (a ++ b).take (n + i) = a ++ b.take i := by
  subst h
  exact List.take_append i

theorem drop_len_add_append {α : Type} (n i : Nat) (a b : List α) (h : a.length = n) :
    (a ++ b).drop (n + i) = b.drop i := by
  subst h
  exact List.drop_append i

/-- `convert_first_dec_spec` with the pad named separately, for rewriting at
record-literal states. -/
theorem convert_first_dec_specK (K : List Nat) (s : PadSession) (o : Nat)
    (rnd2 : Nat → Nat) (rest : List Nat) (hpad : s.pad = K)
    (hoff : s.offset = some o) (hpos : s.pos = o) (hsh : s.sessionHash = none)
    (hfl : s.formatLevel = none) (hdec : s.decrypting = true)
    (henc : s.encrypting = false) (hbeg : s.begun = false)
    (hfr : s.fuzzRemainingToConsume = 0) (htb : s.tailBuffer = [])
    (hhb : s.headBuffer = [])
    (hfit : o + 38 + headFuzzLen K o ≤ K.length)
    (hfit2 : o + 38 + headFuzzLen K o + (rest.length - (32 + tailFuzzLen K o)) ≤ K.length) :
    PadSession.convert (innerHeaderSpec K o rnd2 ++ rest) .internal s =
      .ok (maskSlice (rest.take (rest.length - (32 + tailFuzzLen K o))) K (o + 38 + headFuzzLen K o),
        { s with formatLevel := some FormatLevel.internal, pos := o + 38 + headFuzzLen K o + (rest.length - (32 + tailFuzzLen K o)), length := s.length + 38 + headFuzzLen K o + (rest.length - (32 + tailFuzzLen K o)), sessionHash := some (hashSeedSpec K o ++ rndBytes rnd2 0 (headFuzzLen K o)), tailFuzzLength := some (tailFuzzLen K o), tailFuzzLengthSourceBytes := (K.drop (o + 4)).take 2, tailBuffer := rest.drop (rest.length - (32 + tailFuzzLen K o)), begun := true }) := by
  subst hpad
  exact convert_first_dec_spec s o rnd2 rest hoff hpos hsh hfl hdec henc hbeg hfr htb hhb hfit hfit2

theorem maskSlice_take {x K : List Nat} {pos n : Nat} :
    (maskSlice x K pos).take n = maskSlice (x.take n) K pos := by
  simp only [maskSlice, List.take_zipWith, List.take_take, List.length_take]

theorem maskSlice_drop {x K : List Nat} {pos n : Nat} :
    (maskSlice x K pos).drop n = maskSlice (x.drop n) K (pos + n) := by
  simp only [maskSlice, List.drop_zipWith, List.length_drop]
  congr 1
  rw [List.drop_take, List.drop_drop]

theorem record_consumed_nil (o L : Int) (allow : Bool) :
    Configuration.record_consumed [] o L allow = .ok [(o, L)] := rfl

theorem save_mem (c : ConfigState) (h : c.config_area = "-") :
    Configuration.save c = (none, c) := by
  rw [Configuration.save, if_pos h]

theorem finish_enc_spec (sha256 : List Nat → List Nat) (s : PadSession) (o T : Nat)
    (tr : List Nat)
    (hoff : s.offset = some o) (hfl : s.formatLevel = some FormatLevel.internal)
    (htf : s.tailFuzzLength = some T) (henc : s.encrypting = true)
    (hdec : s.decrypting = false) (hfr : s.fuzzRemainingToConsume = 0)
    (hsh : s.sessionHash = some tr) (hhb : s.headBuffer = [])
    (hnt : s.noTrace = false) (hcA : s.config.config_area = "-")
    (hcU : s.config.used = [])
    (hsha : (sha256 tr).length = 32)
    (hpos : s.pos ≤ s.pad.length) :
    PadSession.finish sha256 s =
      if s.pos + 32 + T ≤ s.pad.length then
        .ok (maskSlice (sha256 tr) s.pad s.pos ++ maskSlice (rndBytes s.rnd s.rndPos T) s.pad (s.pos + 32),
          { s with formatLevel := some FormatLevel.internal, pos := s.pos + 32 + T, length := s.length + 32 + T, begun := true, headBuffer := [], rndPos := s.rndPos + T, config := { s.config with used := [((o : Int), ((s.length + 32 + T : Nat) : Int))] } })
      else if 32 ≤ s.pad.length - s.pos then .error .pyIndexError
      else .error .padShort := by
  simp only [PadSession.finish, hfl, htf, henc, hdec, hsh, if_true]
  rw [convert_enc_spec (sha256 tr) s (by rw [hoff]; rfl) (Or.inr hfl) henc hdec hfr hpos]
  by_cases h1 : 32 ≤ s.pad.length - s.pos
  · rw [if_pos (by rw [hsha]; omega)]
    try dsimp only
    simp only [hsha]
    rw [make_fuzz_plain_spec]
    try dsimp only
    by_cases h2 : T ≤ s.pad.length - (s.pos + 32)
    · rw [if_pos h2, if_pos (by omega)]
      try dsimp only
      rw [hoff]
      try dsimp only
      simp only [hcU, hdec, record_consumed_nil]
      try dsimp only
      rw [if_pos (by rw [hnt]; simp)]
      rw [save_mem _ (by exact hcA)]
      try dsimp only
      rw [show (s.pos + 32 + T) ⊓ s.pad.length = s.pos + 32 + T by omega]
      simp only [hsh, htf, henc, hdec, hhb, List.nil_append]
    · rw [if_neg h2, if_neg (by omega), if_pos h1]
  · rw [if_neg (by rw [hsha]; omega), if_neg (by omega), if_neg h1]

theorem finish_dec_spec (sha256 : List Nat → List Nat) (s : PadSession) (o T : Nat)
    (tf0 tr : List Nat)
    (hoff : s.offset = some o) (hfl : s.formatLevel = some FormatLevel.internal)
    (htf : s.tailFuzzLength = some T) (henc : s.encrypting = false)
    (hdec : s.decrypting = true) (hsh : s.sessionHash = some tr)
    (htb : s.tailBuffer = maskSlice (sha256 tr ++ tf0) s.pad s.pos)
    (htf0 : tf0.length = T)
    (hnt : s.noTrace = false) (hcA : s.config.config_area = "-")
    (hcU : s.config.used = [])
    (hsha : (sha256 tr).length = 32)
    (hfit : s.pos + 32 + T ≤ s.pad.length) :
    PadSession.finish sha256 s =
      .ok ([], { s with pos := s.pos + 32 + T, length := s.length + 32 + T, tailBuffer := maskSlice tf0 s.pad (s.pos + 32), config := { s.config with used := [((o : Int), ((s.length + 32 + T : Nat) : Int))] } }) := by
  have hbuflen : (maskSlice (sha256 tr ++ tf0) s.pad s.pos).length = 32 + T := by
    rw [maskSlice_length (by simp only [List.length_append, hsha, htf0]; omega)]
    simp only [List.length_append, hsha, htf0]
  have htake32 : (maskSlice (sha256 tr ++ tf0) s.pad s.pos).take 32
      = maskSlice (sha256 tr) s.pad s.pos := by
    rw [maskSlice_take, take_len_append 32 _ _ hsha]
  have hdrop32 : (maskSlice (sha256 tr ++ tf0) s.pad s.pos).drop 32
      = maskSlice tf0 s.pad (s.pos + 32) := by
    rw [maskSlice_drop, drop_len_append 32 _ _ hsha]
  have hrecv : List.zipWith (· ^^^ ·) (maskSlice (sha256 tr) s.pad s.pos)
      ((s.pad.drop s.pos).take 32) = sha256 tr := by
    have h := @maskSlice_maskSlice (sha256 tr) s.pad s.pos (by omega)
    rw [maskSlice, maskSlice_length (by omega), hsha] at h
    exact h
  simp only [PadSession.finish, PadSession.verify_digest, PadSession.padRead,
    PadSession.digest_length, hfl, htf, henc, hdec, hsh, htb, if_true,
    Bool.false_eq_true, if_false]
  rw [if_neg (by
    rw [hbuflen]
    simp only [List.length_take, List.length_drop]
    omega)]
  rw [htake32, hdrop32, hrecv]
  try dsimp only
  rw [if_neg (by simp)]
  try dsimp only
  rw [show (s.pos + 32) ⊓ s.pad.length = s.pos + 32 by omega]
  simp only [PadSession.consume_fuzz_bytes, PadSession.padRead]
  try dsimp only
  rw [show (maskSlice tf0 s.pad (s.pos + 32)).length
      = T from by rw [maskSlice_length (by omega), htf0]]
  rw [Nat.min_self]
  rw [show List.drop T (maskSlice tf0 s.pad (s.pos + 32)) = [] from
    List.drop_eq_nil_of_le (by rw [maskSlice_length (by omega), htf0])]
  rw [show T - T = 0 by omega]
  rw [show (s.pos + 32 + T) ⊓ s.pad.length = s.pos + 32 + T by omega]
  rw [if_neg (show ¬(false = true) by simp)]
  try dsimp only
  rw [if_neg (show ¬((0 : Nat) ≠ 0 ∨ ([] : List Nat) ≠ []) by simp)]
  try dsimp only
  rw [hoff]
  try dsimp only
  try simp only [hcU]
  rw [record_consumed_nil]
  try dsimp only
  rw [if_pos (by rw [hnt]; simp)]
  rw [save_mem _ (by exact hcA)]
  try dsimp only
  try simp only [hsh, htf, henc, hdec, hfl]

/-! ## C1: encrypt/decrypt round trip -/

/-- C1.  Round trip: for every plaintext `P`, pad `K` and offset `o ≥ 32`, if
`SessionEncoder`-style encryption of `P` (compressor outputs entering as
`compressed_plaintext`/`flush_output`, digest and base64 as function
parameters) over a fresh in-memory pad record succeeds, producing the armored
pieces and consuming `L` pad bytes, then `SessionDecoder`-style decryption of
those pieces over a fresh session on the same pad at the same offset succeeds,
outputs exactly `P`, and also consumes exactly `L` pad bytes.  The external
functions obey their interfaces: the digest is 32 bytes, base64
decode inverts encode, and the streaming decompressor is prefix-monotone,
maps the empty input to the empty output and inverts the compression of
`P`. -/
theorem encrypt_decrypt_round_trip
    (sha256 b64encode b64decode dcmp : List Nat → List Nat)
    (rnd rnd2 : Nat → Nat) (K : List Nat) (o : Nat)
    (P compressed_plaintext flush_output : List Nat)
    (fs : RecordsFS) (pieces : List (List Nat)) (L : Nat)
    (hsha : ∀ x, (sha256 x).length = 32)
    (hb64 : ∀ x, b64decode (b64encode x) = x)
    (hdnil : dcmp [] = [])
    (hdpre : ∀ a b, dcmp a <+: dcmp (a ++ b))
    (hdP : dcmp (compressed_plaintext ++ flush_output) = P)
    (ho : 32 ≤ o)
    (henc : encoder_run sha256 b64encode compressed_plaintext flush_output rnd
      K ⟨"-", [], fs⟩ false o P = .ok (pieces, L)) :
    decoder_run sha256 b64decode dcmp rnd2 K ⟨"-", [], fs⟩ false o pieces
      = .ok (P, L) := by
  simp only [encoder_run, mk_pad_session, PadSession.set_offset] at henc
  rw [show (Configuration.get_next_offset []).toNat = 32 from rfl] at henc
  by_cases hK32 : 32 ≥ K.length
  · rw [if_pos hK32] at henc
    exact absurd henc (by simp)
  · rw [if_neg hK32] at henc
    dsimp only at henc
    by_cases hoK : o ≥ K.length
    · rw [if_pos hoK] at henc
      exact absurd henc (by simp)
    · rw [if_neg hoK] at henc
      dsimp only at henc
      simp only [PadSession.prepare_for_encryption] at henc
      rw [if_neg (show ¬(false = true) by simp)] at henc
      rw [if_neg (show ¬(false = true) by simp)] at henc
      by_cases h33 : o + 32 < K.length
      case neg =>
        obtain ⟨e, he⟩ := make_inner_header_err { pad := K, pos := o, offset := some o, length := 0, fuzzRemainingToConsume := 0, sessionHash := none, tailFuzzLength := none, tailFuzzLengthSourceBytes := [], headBuffer := [], tailBuffer := [], encrypting := false, decrypting := false, begun := false, formatLevel := none, rnd := rnd, rndPos := 0, noTrace := false, config := { config_area := "-", used := [], fs := fs } } o rfl rfl (by dsimp only; omega)
        rw [he] at henc
        exact absurd henc (by simp)
      case pos =>
        rw [make_inner_header_spec _ o (by exact rfl) (by exact rfl) (by exact rfl)
          (by exact h33)] at henc
        try dsimp only at henc
        by_cases hC : (o + 38) ⊓ K.length + headFuzzLen K o ≤ K.length
        case neg =>
          rw [if_neg hC] at henc
          exact absurd henc (by simp)
        case pos =>
        rw [if_pos hC] at henc
        try dsimp only at henc
        by_cases hc1 : compressed_plaintext = []
        case neg =>
          rw [if_pos hc1] at henc
          rw [convert_enc_spec compressed_plaintext _ (by exact rfl) (by exact Or.inl rfl)
            (by exact rfl) (by exact rfl) (by exact rfl) (by dsimp only; omega)] at henc
          by_cases hF1 : compressed_plaintext.length ≤ K.length - ((o + 38) ⊓ K.length + headFuzzLen K o)
          case neg =>
            rw [if_neg hF1] at henc
            exact absurd henc (by simp)
          case pos =>
          rw [if_pos hF1] at henc
          try dsimp only at henc
          simp only [PadSession.digest_gulp] at henc
          try dsimp only at henc
          rw [convert_enc_spec flush_output _ (by exact rfl) (by exact Or.inr rfl)
            (by exact rfl) (by exact rfl) (by exact rfl) (by dsimp only; omega)] at henc
          by_cases hF2 : flush_output.length ≤ K.length - ((o + 38) ⊓ K.length + headFuzzLen K o + compressed_plaintext.length)
          case neg =>
            rw [if_neg hF2] at henc
            exact absurd henc (by simp)
          case pos =>
          rw [if_pos hF2] at henc
          try dsimp only at henc
          rw [finish_enc_spec sha256 _ o (tailFuzzLen K o)
            (List.take 32 (List.drop (o + 6) K) ++ rndBytes rnd 0 (headFuzzLen K o) ++ P)
            (by exact rfl) (by exact rfl) (by exact rfl) (by exact rfl) (by exact rfl)
            (by exact rfl) (by exact rfl) (by exact rfl) (by exact rfl) (by exact rfl)
            (by exact rfl) (hsha _) (by dsimp only; omega)] at henc
          try dsimp only at henc
          by_cases hFit : (o + 38) ⊓ K.length + headFuzzLen K o + compressed_plaintext.length + flush_output.length + 32 + tailFuzzLen K o ≤ K.length
          case neg =>
            rw [if_neg hFit] at henc
            by_cases h1 : 32 ≤ K.length - ((o + 38) ⊓ K.length + headFuzzLen K o + compressed_plaintext.length + flush_output.length)
            · rw [if_pos h1] at henc
              try dsimp only at henc
              exact absurd henc (by simp)
            · rw [if_neg h1] at henc
              try dsimp only at henc
              exact absurd henc (by simp)
          case pos =>
          rw [if_pos hFit] at henc
          have h38 : o + 38 ≤ K.length := by
            rcases Nat.le_total (o + 38) K.length with h | h
            · exact h
            · rw [Nat.min_eq_right h] at hFit
              omega
          rw [show (o + 38) ⊓ K.length = o + 38 from Nat.min_eq_left h38] at henc hC hF1 hF2 hFit
          try dsimp only at henc
          rw [Except.ok.injEq, Prod.mk.injEq] at henc
          obtain ⟨hpieces, hL⟩ := henc
          subst hpieces
          subst hL
          have hlen1 : (maskSlice compressed_plaintext K (o + 38 + headFuzzLen K o)).length
              = compressed_plaintext.length := maskSlice_length (by omega)
          simp only [decoder_run, mk_pad_session, PadSession.set_offset,
            PadSession.prepare_for_decryption]
          rw [show (Configuration.get_next_offset []).toNat = 32 from rfl]
          rw [if_neg (show ¬(32 ≥ K.length) by omega)]
          try dsimp only
          rw [if_neg (show ¬(o ≥ K.length) by omega)]
          try dsimp only
          rw [if_neg (show ¬(false = true) by simp)]
          rw [if_neg (show ¬(false = true) by simp)]
          try dsimp only
          simp only [decoder_loop, hb64]
          rw [show (byteAt K o :: byteAt K (o + 1) :: (List.take 2 (List.drop (o + 2) K) ++ List.take 2 (List.drop (o + 4) K) ++ maskSlice (rndBytes rnd 0 (headFuzzLen K o)) K (o + 38))) = innerHeaderSpec K o rnd from rfl]
          rw [convert_first_dec_specK K _ o rnd
            (maskSlice compressed_plaintext K (o + 38 + headFuzzLen K o))
            (by exact rfl) (by exact rfl) (by exact rfl) (by exact rfl) (by exact rfl)
            (by exact rfl) (by exact rfl) (by exact rfl) (by exact rfl) (by exact rfl)
            (by exact rfl) (by omega) (by rw [hlen1]; omega)]
          try dsimp only
          simp only [hlen1]
          simp only [List.nil_append, hdnil, List.length_nil, List.drop_zero]
          rw [maskSlice_take]
          rw [maskSlice_maskSlice (show o + 38 + headFuzzLen K o + (List.take (compressed_plaintext.length - (32 + tailFuzzLen K o)) compressed_plaintext).length ≤ K.length by simp only [List.length_take]; omega)]
          rw [maskSlice_drop]
          simp only [PadSession.digest_gulp]
          try dsimp only
          have hlenD : (maskSlice (List.drop (compressed_plaintext.length - (32 + tailFuzzLen K o)) compressed_plaintext) K (o + 38 + headFuzzLen K o + (compressed_plaintext.length - (32 + tailFuzzLen K o)))).length = compressed_plaintext.length - (compressed_plaintext.length - (32 + tailFuzzLen K o)) := by
            rw [maskSlice_length (by simp only [List.length_drop]; omega)]
            simp only [List.length_drop]
          have hlenA : (maskSlice flush_output K (o + 38 + headFuzzLen K o + compressed_plaintext.length)).length = flush_output.length := maskSlice_length (by omega)
          have hlenB : (maskSlice (sha256 (List.take 32 (List.drop (o + 6) K) ++ rndBytes rnd 0 (headFuzzLen K o) ++ P)) K (o + 38 + headFuzzLen K o + compressed_plaintext.length + flush_output.length)).length = 32 := by
            rw [maskSlice_length (by rw [hsha]; omega), hsha]
          have hrndT : (rndBytes rnd (0 + headFuzzLen K o) (tailFuzzLen K o)).length = tailFuzzLen K o := by
            simp [rndBytes]
          have hlenC : (maskSlice (rndBytes rnd (0 + headFuzzLen K o) (tailFuzzLen K o)) K (o + 38 + headFuzzLen K o + compressed_plaintext.length + flush_output.length + 32)).length = tailFuzzLen K o := by
            rw [maskSlice_length (by rw [hrndT]; omega), hrndT]
          rw [convert_decrypt_steady_fwd _ (tailFuzzLen K o) _ (by exact rfl) (by exact rfl)
            (by exact rfl) (by exact rfl) (by exact rfl) (by exact rfl) (by exact rfl)
            (by exact rfl)
            (by dsimp only; simp only [List.length_append, hlenD, hlenA, hlenB, hlenC]; omega)]
          try dsimp only
          simp only [List.length_append, hlenD, hlenA, hlenB, hlenC]
          rw [show compressed_plaintext.length - (compressed_plaintext.length - (32 + tailFuzzLen K o)) + (flush_output.length + (32 + tailFuzzLen K o)) - (32 + tailFuzzLen K o) = compressed_plaintext.length - (compressed_plaintext.length - (32 + tailFuzzLen K o)) + flush_output.length by omega]
          rw [take_len_add_append _ _ _ _ hlenD, take_len_append _ _ _ hlenA]
          rw [drop_len_add_append _ _ _ _ hlenD, drop_len_append _ _ _ hlenA]
          rw [maskSlice_append (show o + 38 + headFuzzLen K o + (compressed_plaintext.length - (32 + tailFuzzLen K o)) + (maskSlice (List.drop (compressed_plaintext.length - (32 + tailFuzzLen K o)) compressed_plaintext) K (o + 38 + headFuzzLen K o + (compressed_plaintext.length - (32 + tailFuzzLen K o)))).length ≤ K.length by rw [hlenD]; omega)]
          rw [maskSlice_maskSlice (show o + 38 + headFuzzLen K o + (compressed_plaintext.length - (32 + tailFuzzLen K o)) + (List.drop (compressed_plaintext.length - (32 + tailFuzzLen K o)) compressed_plaintext).length ≤ K.length by simp only [List.length_drop]; omega)]
          rw [hlenD]
          rw [show o + 38 + headFuzzLen K o + (compressed_plaintext.length - (32 + tailFuzzLen K o)) + (compressed_plaintext.length - (compressed_plaintext.length - (32 + tailFuzzLen K o))) = o + 38 + headFuzzLen K o + compressed_plaintext.length by omega]
          rw [maskSlice_maskSlice (show o + 38 + headFuzzLen K o + compressed_plaintext.length + flush_output.length ≤ K.length by omega)]
          rw [show List.take (compressed_plaintext.length - (32 + tailFuzzLen K o)) compressed_plaintext ++ (List.drop (compressed_plaintext.length - (32 + tailFuzzLen K o)) compressed_plaintext ++ flush_output) = compressed_plaintext ++ flush_output from by rw [← List.append_assoc, List.take_append_drop]]
          rw [show o + 38 + headFuzzLen K o + (compressed_plaintext.length - (32 + tailFuzzLen K o)) + (compressed_plaintext.length - (compressed_plaintext.length - (32 + tailFuzzLen K o)) + flush_output.length) = o + 38 + headFuzzLen K o + compressed_plaintext.length + flush_output.length by omega]
          rw [show 0 + 38 + headFuzzLen K o + (compressed_plaintext.length - (32 + tailFuzzLen K o)) + (compressed_plaintext.length - (compressed_plaintext.length - (32 + tailFuzzLen K o)) + flush_output.length) = 0 + 38 + headFuzzLen K o + compressed_plaintext.length + flush_output.length by omega]
          have hout : dcmp (List.take (compressed_plaintext.length - (32 + tailFuzzLen K o)) compressed_plaintext) ++ List.drop (dcmp (List.take (compressed_plaintext.length - (32 + tailFuzzLen K o)) compressed_plaintext)).length (dcmp (compressed_plaintext ++ flush_output)) = P := by
            obtain ⟨w, hw⟩ := hdpre (List.take (compressed_plaintext.length - (32 + tailFuzzLen K o)) compressed_plaintext) (List.drop (compressed_plaintext.length - (32 + tailFuzzLen K o)) compressed_plaintext ++ flush_output)
            rw [← List.append_assoc, List.take_append_drop] at hw
            rw [← hw, drop_len_append _ _ _ rfl, hw, hdP]
          have htr : hashSeedSpec K o ++ rndBytes rnd 0 (headFuzzLen K o) ++ dcmp (List.take (compressed_plaintext.length - (32 + tailFuzzLen K o)) compressed_plaintext) ++ List.drop (dcmp (List.take (compressed_plaintext.length - (32 + tailFuzzLen K o)) compressed_plaintext)).length (dcmp (compressed_plaintext ++ flush_output)) = List.take 32 (List.drop (o + 6) K) ++ rndBytes rnd 0 (headFuzzLen K o) ++ P := by
            rw [show hashSeedSpec K o = List.take 32 (List.drop (o + 6) K) from rfl]
            rw [List.append_assoc (List.take 32 (List.drop (o + 6) K) ++ rndBytes rnd 0 (headFuzzLen K o))]
            rw [hout]
          rw [htr]
          have hbuf : maskSlice (sha256 (List.take 32 (List.drop (o + 6) K) ++ rndBytes rnd 0 (headFuzzLen K o) ++ P) ++ rndBytes rnd (0 + headFuzzLen K o) (tailFuzzLen K o)) K (o + 38 + headFuzzLen K o + compressed_plaintext.length + flush_output.length) = maskSlice (sha256 (List.take 32 (List.drop (o + 6) K) ++ rndBytes rnd 0 (headFuzzLen K o) ++ P)) K (o + 38 + headFuzzLen K o + compressed_plaintext.length + flush_output.length) ++ maskSlice (rndBytes rnd (0 + headFuzzLen K o) (tailFuzzLen K o)) K (o + 38 + headFuzzLen K o + compressed_plaintext.length + flush_output.length + 32) := by
            rw [maskSlice_append (by rw [hsha]; omega), hsha]
          rw [← hbuf]
          rw [finish_dec_spec sha256 _ o (tailFuzzLen K o)
            (rndBytes rnd (0 + headFuzzLen K o) (tailFuzzLen K o))
            (List.take 32 (List.drop (o + 6) K) ++ rndBytes rnd 0 (headFuzzLen K o) ++ P)
            (by exact rfl) (by exact rfl) (by exact rfl) (by exact rfl) (by exact rfl)
            (by exact rfl) (by exact rfl) (by exact hrndT) (by exact rfl) (by exact rfl)
            (by exact rfl) (hsha _) (by dsimp only; omega)]
          try dsimp only
          rw [hout]
        case pos =>
          subst hc1
          rw [if_neg (show ¬(([] : List Nat) ≠ []) by simp)] at henc
          try dsimp only at henc
          simp only [PadSession.digest_gulp] at henc
          try dsimp only at henc
          rw [convert_enc_spec flush_output _ (by exact rfl) (by exact Or.inl rfl)
            (by exact rfl) (by exact rfl) (by exact rfl) (by dsimp only; omega)] at henc
          by_cases hF2 : flush_output.length ≤ K.length - ((o + 38) ⊓ K.length + headFuzzLen K o)
          case neg =>
            rw [if_neg hF2] at henc
            exact absurd henc (by simp)
          case pos =>
          rw [if_pos hF2] at henc
          try dsimp only at henc
          rw [finish_enc_spec sha256 _ o (tailFuzzLen K o)
            (List.take 32 (List.drop (o + 6) K) ++ rndBytes rnd 0 (headFuzzLen K o) ++ P)
            (by exact rfl) (by exact rfl) (by exact rfl) (by exact rfl) (by exact rfl)
            (by exact rfl) (by exact rfl) (by exact rfl) (by exact rfl) (by exact rfl)
            (by exact rfl) (hsha _) (by dsimp only; omega)] at henc
          try dsimp only at henc
          by_cases hFit : (o + 38) ⊓ K.length + headFuzzLen K o + flush_output.length + 32 + tailFuzzLen K o ≤ K.length
          case neg =>
            rw [if_neg hFit] at henc
            by_cases h1 : 32 ≤ K.length - ((o + 38) ⊓ K.length + headFuzzLen K o + flush_output.length)
            · rw [if_pos h1] at henc
              try dsimp only at henc
              exact absurd henc (by simp)
            · rw [if_neg h1] at henc
              try dsimp only at henc
              exact absurd henc (by simp)
          case pos =>
          rw [if_pos hFit] at henc
          have h38 : o + 38 ≤ K.length := by
            rcases Nat.le_total (o + 38) K.length with h | h
            · exact h
            · rw [Nat.min_eq_right h] at hFit
              omega
          rw [show (o + 38) ⊓ K.length = o + 38 from Nat.min_eq_left h38] at henc hC hF2 hFit
          try dsimp only at henc
          rw [Except.ok.injEq, Prod.mk.injEq] at henc
          obtain ⟨hpieces, hL⟩ := henc
          subst hpieces
          subst hL
          rw [List.nil_append] at hdP
          have hlenA : (maskSlice flush_output K (o + 38 + headFuzzLen K o)).length = flush_output.length := maskSlice_length (by omega)
          have hlenB : (maskSlice (sha256 (List.take 32 (List.drop (o + 6) K) ++ rndBytes rnd 0 (headFuzzLen K o) ++ P)) K (o + 38 + headFuzzLen K o + flush_output.length)).length = 32 := by
            rw [maskSlice_length (by rw [hsha]; omega), hsha]
          have hrndT : (rndBytes rnd (0 + headFuzzLen K o) (tailFuzzLen K o)).length = tailFuzzLen K o := by
            simp [rndBytes]
          have hlenC : (maskSlice (rndBytes rnd (0 + headFuzzLen K o) (tailFuzzLen K o)) K (o + 38 + headFuzzLen K o + flush_output.length + 32)).length = tailFuzzLen K o := by
            rw [maskSlice_length (by rw [hrndT]; omega), hrndT]
          simp only [decoder_run, mk_pad_session, PadSession.set_offset,
            PadSession.prepare_for_decryption, List.nil_append]
          rw [show (Configuration.get_next_offset []).toNat = 32 from rfl]
          rw [if_neg (show ¬(32 ≥ K.length) by omega)]
          try dsimp only
          rw [if_neg (show ¬(o ≥ K.length) by omega)]
          try dsimp only
          rw [if_neg (show ¬(false = true) by simp)]
          rw [if_neg (show ¬(false = true) by simp)]
          try dsimp only
          simp only [decoder_loop, hb64]
          rw [show (byteAt K o :: byteAt K (o + 1) :: (List.take 2 (List.drop (o + 2) K) ++ List.take 2 (List.drop (o + 4) K) ++ maskSlice (rndBytes rnd 0 (headFuzzLen K o)) K (o + 38))) = innerHeaderSpec K o rnd from rfl]
          rw [List.append_assoc (innerHeaderSpec K o rnd)]
          rw [convert_first_dec_specK K _ o rnd
            (maskSlice flush_output K (o + 38 + headFuzzLen K o) ++ (maskSlice (sha256 (List.take 32 (List.drop (o + 6) K) ++ rndBytes rnd 0 (headFuzzLen K o) ++ P)) K (o + 38 + headFuzzLen K o + flush_output.length) ++ maskSlice (rndBytes rnd (0 + headFuzzLen K o) (tailFuzzLen K o)) K (o + 38 + headFuzzLen K o + flush_output.length + 32)))
            (by exact rfl) (by exact rfl) (by exact rfl) (by exact rfl) (by exact rfl)
            (by exact rfl) (by exact rfl) (by exact rfl) (by exact rfl) (by exact rfl)
            (by exact rfl) (by omega)
            (by simp only [List.length_append, hlenA, hlenB, hlenC]; omega)]
          try dsimp only
          simp only [List.length_append, hlenA, hlenB, hlenC]
          rw [show flush_output.length + (32 + tailFuzzLen K o) - (32 + tailFuzzLen K o) = flush_output.length by omega]
          rw [take_len_append _ _ _ hlenA, drop_len_append _ _ _ hlenA]
          rw [maskSlice_maskSlice (show o + 38 + headFuzzLen K o + flush_output.length ≤ K.length by omega)]
          simp only [List.nil_append, hdnil, List.length_nil, List.drop_zero]
          simp only [PadSession.digest_gulp]
          try dsimp only
          rw [show hashSeedSpec K o ++ rndBytes rnd 0 (headFuzzLen K o) ++ dcmp flush_output = List.take 32 (List.drop (o + 6) K) ++ rndBytes rnd 0 (headFuzzLen K o) ++ P from by rw [show hashSeedSpec K o = List.take 32 (List.drop (o + 6) K) from rfl, hdP]]
          have hbuf : maskSlice (sha256 (List.take 32 (List.drop (o + 6) K) ++ rndBytes rnd 0 (headFuzzLen K o) ++ P) ++ rndBytes rnd (0 + headFuzzLen K o) (tailFuzzLen K o)) K (o + 38 + headFuzzLen K o + flush_output.length) = maskSlice (sha256 (List.take 32 (List.drop (o + 6) K) ++ rndBytes rnd 0 (headFuzzLen K o) ++ P)) K (o + 38 + headFuzzLen K o + flush_output.length) ++ maskSlice (rndBytes rnd (0 + headFuzzLen K o) (tailFuzzLen K o)) K (o + 38 + headFuzzLen K o + flush_output.length + 32) := by
            rw [maskSlice_append (by rw [hsha]; omega), hsha]
          rw [← hbuf]
          rw [finish_dec_spec sha256 _ o (tailFuzzLen K o)
            (rndBytes rnd (0 + headFuzzLen K o) (tailFuzzLen K o))
            (List.take 32 (List.drop (o + 6) K) ++ rndBytes rnd 0 (headFuzzLen K o) ++ P)
            (by exact rfl) (by exact rfl) (by exact rfl) (by exact rfl) (by exact rfl)
            (by exact rfl) (by exact rfl) (by exact hrndT) (by exact rfl) (by exact rfl)
            (by exact rfl) (hsha _) (by dsimp only; omega)]
          try dsimp only
          rw [hdP]

/-- Witness for C1: on the all-zero 105-byte pad at offset 32, with identity
base64 and (de)compression, zero randomness and the constant 32-zero digest,
encrypting `[7, 8, 9]` succeeds with the concrete pieces `padZpieces` and
length 73, and decryption of those pieces returns `([7, 8, 9], 73)`. -/
theorem encrypt_decrypt_round_trip_witness :
    decoder_run z32fn id id (fun _ => 1) padZ ⟨"-", [], ⟨none, none, none⟩⟩ false 32 padZpieces
      = .ok ([7, 8, 9], 73) :=
  encrypt_decrypt_round_trip z32fn id id id (fun _ => 0) (fun _ => 1) padZ 32
    [7, 8, 9] [7, 8, 9] [] ⟨none, none, none⟩ padZpieces 73
    (fun _ => rfl) (fun _ => rfl) rfl (fun a b => ⟨b, rfl⟩) (by decide) (by decide)
    (by decide)
